import Mathlib

/-!
# rrd-service: the storage adapter, the range service and the HTTP handler

A shallow embedding of `internal/adaptors/storage/storage.go`,
`internal/models/record.go`, `internal/rrd/rrd.go` and
`internal/httpsrv/handlers/rrd.go`.

The Aerospike client is an external collaborator. It is modelled as an explicit
state (`Backend`): the `metrics` set as an association list from timestamp to
metric value, the single record of the `counter` set, and the list of client
calls issued so far. Every client call that can return an error in the Go code
reads its outcome from a `Faults` value, so one Go call is a pure function of
the state, the context and the faults. A client call that reports an error has
no effect on the stored data. The store keeps no bin for a nil value: a row put
with a nil metric value is read back without its `metric_value` bin.
-/

namespace RRD

/-! ## internal/models/record.go -/

/-- A Go value of type `any` as a bin of the backing store carries it: the Go
nil, an integer, a float64 (kept as its bit pattern, no arithmetic is ever
performed on it) or a string. -/
inductive BinValue
  | nil
  | int (n : Int)
  | float64 (bits : Nat)
  | str (s : String)
  deriving DecidableEq

/-- The Go struct `models.Record`: `Timestamp` is an `int64`, `MetricValue` is
of type `any`. -/
structure Record where
  Timestamp : Int
  MetricValue : BinValue
  deriving DecidableEq

/-! ## errors and contexts -/

/-- A Go `error`: a base error or `fmt.Errorf("msg: %w", cause)`. -/
inductive Error
  | base (msg : String)
  | wrap (msg : String) (cause : Error)
  deriving DecidableEq

/-- A `context.Context`, as far as the code observes it: through `ctx.Err()`.
A call is single-threaded and instantaneous, so the context does not change
during one call. -/
inductive Context
  | live
  | canceled
  | deadlineExceeded
  deriving DecidableEq

/-- The Go method `ctx.Err()`. -/
def Context.Err : Context → Option Error
  | .live => none
  | .canceled => some (.base "context canceled")
  | .deadlineExceeded => some (.base "context deadline exceeded")

/-! ## the Aerospike client -/

/-- A call on the Aerospike client that reaches the backing store. -/
inductive Op
  | put (key : Int) (value : BinValue)
  | putCounter (val : Int)
  | get
  | delete (key : Int)
  | query (min max : Int)
  | queryAggregate
  deriving DecidableEq

/-- The state of the backing store: the `metrics` set (key and `timestamp` bin
are the same number, the `metric_value` bin is the value, and a nil value
stands for a row without that bin), the `counter` bin of
the one record of the `counter` set when that record exists, and the client
calls issued so far, oldest first. -/
structure Backend where
  metrics : List (Int × BinValue)
  counter : Option BinValue
  log : List Op
  deriving DecidableEq

/-- The outcome of each fallible library call of one Go call: `none` when the
call returns a nil error, `some e` when it returns `e`. -/
structure Faults where
  /-- Outcome of `aerospike.NewKey` in `Set` -/
  newKey : Option Error
  /-- Outcome of `client.Put` in `Set` -/
  put : Option Error
  /-- Outcome of `client.QueryAggregate` in `FindOldestKey` -/
  queryAggregate : Option Error
  /-- Outcome of `res.Err` on the result stream of the aggregation -/
  aggregateResult : Option Error
  /-- Outcome of `aerospike.NewKey` in `FindOldestKey` -/
  findNewKey : Option Error
  /-- Outcome of `client.Delete` in `evict` -/
  delete : Option Error
  /-- Outcome of `stmt.SetFilter` in `GetByRange` -/
  setFilter : Option Error
  /-- Outcome of `client.Query` in `GetByRange` -/
  query : Option Error
  /-- Outcome of `res.Err` on the result stream of the range query -/
  queryResult : Option Error
  /-- Outcome of `aerospike.NewKey` in `SetCounter` and `GetCounter` -/
  counterNewKey : Option Error
  /-- Outcome of `client.Put` in `SetCounter` -/
  counterPut : Option Error
  /-- Outcome of `client.Get` in `GetCounter` (besides a missing record) -/
  get : Option Error
  /-- Outcome of `aerospike.NewClient` in `NewStorage` -/
  newClient : Option Error
  /-- Outcome of `client.CreateIndex` in `NewStorage` -/
  createIndex : Option Error
  /-- Outcome of `client.RegisterUDFFromFile` in `NewStorage` -/
  registerUDF : Option Error
  deriving DecidableEq

/-- Every library call succeeds. -/
def Faults.none : Faults :=
  ⟨.none, .none, .none, .none, .none, .none, .none, .none, .none, .none, .none, .none,
    .none, .none, .none⟩

/-- The timestamps present in the `metrics` set. -/
def Backend.keys (db : Backend) : Finset Int :=
  (db.metrics.map Prod.fst).toFinset

/-- The call `client.Put(writePolicy, key, bin)` on the `metrics` set: an upsert
by key. -/
def Backend.Put (db : Backend) (fault : Option Error) (key : Int) (value : BinValue) :
    Option Error × Backend :=
  let db1 : Backend := { db with log := db.log ++ [Op.put key value] }
  match fault with
  | some e => (some e, db1)
  | .none => (.none, { db1 with metrics := (key, value) :: db1.metrics.filter (fun p => p.1 != key) })

/-- The call `client.Delete(nil, key)` on the `metrics` set; deleting an absent
key is not an error. -/
def Backend.Delete (db : Backend) (fault : Option Error) (key : Int) : Option Error × Backend :=
  let db1 : Backend := { db with log := db.log ++ [Op.delete key] }
  match fault with
  | some e => (some e, db1)
  | .none => (.none, { db1 with metrics := db1.metrics.filter (fun p => p.1 != key) })

/-- The call `client.Put(nil, key, bin)` on the record of the `counter` set. -/
def Backend.PutCounter (db : Backend) (fault : Option Error) (val : Int) : Option Error × Backend :=
  let db1 : Backend := { db with log := db.log ++ [Op.putCounter val] }
  match fault with
  | some e => (some e, db1)
  | .none => (.none, { db1 with counter := some (BinValue.int val) })

/-- The Go type `aerospike.BinMap`: the bins of a record, by name. -/
abbrev BinMap := List (String × BinValue)

/-- The bins of a row of the `metrics` set as the client returns them: the
`timestamp` bin holds the timestamp, and the `metric_value` bin is there unless
the value put was the Go nil, for which the store keeps no bin. -/
def Backend.bins (row : Int × BinValue) : BinMap :=
  match row.2 with
  | BinValue.nil => [("timestamp", BinValue.int row.1)]
  | v => [("timestamp", BinValue.int row.1), ("metric_value", v)]

/-- The records that `client.Query` streams for the range filter
`NewRangeFilter("timestamp", min, max)`, both ends included. -/
def Backend.Query (db : Backend) (min max : Int) : List BinMap :=
  (db.metrics.filter (fun p => decide (min ≤ p.1) && decide (p.1 ≤ max))).map Backend.bins

/-- Modelled from the spec: the server-side reduction `find_oldest` of
`udf/find_oldest.lua`, which is not among the sources. It runs over the full
record set and returns the smallest timestamp present, or nothing when the set
is empty. -/
def find_oldest : List (Int × BinValue) → Option Int
  | [] => none
  | (k, _) :: rest =>
    match find_oldest rest with
    | none => some k
    | some m => some (min k m)

/-- The conversion `int64(x)` of a `uint64`. -/
def toInt64 (n : Nat) : Int :=
  if n % 2 ^ 64 < 2 ^ 63 then ((n % 2 ^ 64 : Nat) : Int) else ((n % 2 ^ 64 : Nat) : Int) - 2 ^ 64

/-- The conversion `uint64(x)` of an `int64`. -/
def toUint64 (i : Int) : Nat :=
  (i % 2 ^ 64).toNat

/-! ## internal/adaptors/storage/storage.go -/

/-- The Go struct `Storage`: `maxRecords` and `counter` are `uint64`, `client`
is the connection to the backing store, `logger` collects the messages logged
at error level. The namespace string only names the keys and is left out. -/
structure Storage where
  maxRecords : Nat
  counter : Nat
  client : Backend
  logger : List String
  deriving DecidableEq

/-- The timestamps held by the backing store of `s`. -/
def Storage.keys (s : Storage) : Finset Int := s.client.keys

/-- The client calls issued between state `s` and the later state `t`. -/
def Storage.issued (s t : Storage) : List Op := t.client.log.drop s.client.log.length

/-- The Go method `(*Storage).FindOldestKey`: the key is `nil` (`none`) when the
aggregation yields no record. -/
def Storage.FindOldestKey (s : Storage) (f : Faults) (ctx : Context) :
    (Option Int × Option Error) × Storage :=
  match ctx.Err with
  | some err => ((none, some (.wrap "context error" err)), s)
  | none =>
    let s1 : Storage := { s with client := { s.client with log := s.client.log ++ [Op.queryAggregate] } }
    match f.queryAggregate with
    | some err => ((none, some (.wrap "failed to execute query" err)), s1)
    | none =>
      match f.aggregateResult with
      | some err => ((none, some err), s1)
      | none =>
        match find_oldest s1.client.metrics with
        | some timestamp =>
          match f.findNewKey with
          | some err => ((none, some (.wrap "failed to create aerospike key" err)), s1)
          | none => ((some timestamp, none), s1)
        | none => ((none, none), s1)

/-- The Go method `(*Storage).evict`. -/
def Storage.evict (s : Storage) (f : Faults) (ctx : Context) : Option Error × Storage :=
  match s.FindOldestKey f ctx with
  | ((_, some errKey), s1) => (some (.wrap "failed to find oldest key" errKey), s1)
  | ((some oldestKey, none), s1) =>
    match s1.client.Delete f.delete oldestKey with
    | (some err, db) => (some (.wrap "failed to delete oldest key" err), { s1 with client := db })
    | (none, db) => (none, { s1 with client := db })
  | ((none, none), s1) => (none, s1)

/-- The Go method `(*Storage).SetCounter`. It returns nothing: a context error
and a key error are logged and the method goes on. After a key error the key is
nil and no write can reach the store; only the log message is kept. -/
def Storage.SetCounter (s : Storage) (f : Faults) (ctx : Context) (val : Int) : Storage :=
  let s1 : Storage :=
    match ctx.Err with
    | some _ => { s with logger := s.logger ++ ["context error"] }
    | none => s
  match f.counterNewKey with
  | some _ => { s1 with logger := s1.logger ++ ["failed to create aerospike key", "failed to put bins"] }
  | none =>
    match s1.client.PutCounter f.counterPut val with
    | (some _, db) => { s1 with client := db, logger := s1.logger ++ ["failed to put bins"] }
    | (none, db) => { s1 with client := db }

/-- The Go method `(*Storage).Set`. -/
def Storage.Set (s : Storage) (f : Faults) (ctx : Context) (record : Record) :
    Option Error × Storage :=
  match ctx.Err with
  | some err => (some (.wrap "context error" err), s)
  | none =>
    match (if s.counter ≥ s.maxRecords then s.evict f ctx else (none, s)) with
    | (some err, s1) => (some (.wrap "failed to evict records" err), s1)
    | (none, s1) =>
      match f.newKey with
      | some err => (some (.wrap "failed to create aerospike key" err), s1)
      | none =>
        match s1.client.Put f.put record.Timestamp record.MetricValue with
        | (some err, db) => (some (.wrap "failed to put bins" err), { s1 with client := db })
        | (none, db) =>
          let s2 : Storage := { s1 with client := db }
          if s2.counter < s2.maxRecords then
            let s3 : Storage := { s2 with counter := (s2.counter + 1) % 2 ^ 64 }
            (none, s3.SetCounter f ctx (toInt64 s3.counter))
          else
            (none, s2)

/-- The loop of `GetByRange` over the records of the result stream: the
`timestamp` bin must hold an integer and the `metric_value` bin must be
present, the first record that fails a check ends the call with an error. -/
def decodeResults : List BinMap → List Record → Option (List Record) × Option Error
  | [], results => (some results, none)
  | bins :: rest, results =>
    match bins.lookup "timestamp" with
    | some (BinValue.int timestamp) =>
      match bins.lookup "metric_value" with
      | some metricValue =>
        decodeResults rest (results ++ [{ Timestamp := timestamp, MetricValue := metricValue }])
      | none => (none, some (.base "failed to cast metric_value to float64"))
    | _ => (none, some (.base "failed to cast timestamp to int64"))

/-- The Go method `(*Storage).GetByRange`. The result list is `nil` (`none`) on
an error. An error of the result stream is taken before the first record. -/
def Storage.GetByRange (s : Storage) (f : Faults) (ctx : Context) (min max : Int) :
    (Option (List Record) × Option Error) × Storage :=
  match ctx.Err with
  | some err => ((none, some (.wrap "context error" err)), s)
  | none =>
    match f.setFilter with
    | some err => ((none, some (.wrap "failed to set statement filter" err)), s)
    | none =>
      let s1 : Storage := { s with client := { s.client with log := s.client.log ++ [Op.query min max] } }
      match f.query with
      | some err => ((none, some (.wrap "failed to execute query" err)), s1)
      | none =>
        match f.queryResult with
        | some err => ((none, some (.wrap "failed to itterate over result" err)), s1)
        | none => (decodeResults (s1.client.Query min max) [], s1)

/-- The Go method `(*Storage).GetCounter`. `client.Get` reports an error for a
missing record. -/
def Storage.GetCounter (s : Storage) (f : Faults) (ctx : Context) :
    (Int × Option Error) × Storage :=
  match ctx.Err with
  | some err => ((0, some (.wrap "context error" err)), s)
  | none =>
    match f.counterNewKey with
    | some err => ((0, some (.wrap "failed to create aerospike key" err)), s)
    | none =>
      let s1 : Storage := { s with client := { s.client with log := s.client.log ++ [Op.get] } }
      match f.get with
      | some err => ((0, some (.wrap "failed to get counter" err)), s1)
      | none =>
        match s1.client.counter with
        | none => ((0, some (.wrap "failed to get counter" (.base "Key not found"))), s1)
        | some (BinValue.int counter) => ((counter, none), s1)
        | some _ => ((0, some (.base "failed to cast counter to int")), s1)

/-- The Go function `NewStorage`, from the state `db` of the backing store. The
counter is read with `context.Background()`, which is never cancelled. -/
def NewStorage (f : Faults) (maxRecords : Nat) (db : Backend) : Option Storage × Option Error :=
  match f.newClient with
  | some err => (none, some (.wrap "failed to initialize aerospike client" err))
  | none =>
    match f.createIndex with
    | some err => (none, some (.wrap "failed to create index" err))
    | none =>
      match f.registerUDF with
      | some err => (none, some (.wrap "failed to register udf" err))
      | none =>
        let storage : Storage := { maxRecords := maxRecords, counter := 0, client := db, logger := [] }
        match storage.GetCounter f Context.live with
        | ((counter, none), s1) => (some { s1 with counter := toUint64 counter }, none)
        | ((_, some _), s1) => (some s1, none)

/-- A sequence of `Set` calls, each with its own faults, context and record:
the error and the state after every call, in order. -/
def Storage.SetMany (s : Storage) : List (Faults × Context × Record) → List (Option Error × Storage)
  | [] => []
  | c :: cs =>
    let out := s.Set c.1 c.2.1 c.2.2
    out :: Storage.SetMany out.2 cs

/-- Every call of a sequence returned a nil error. -/
def Succeeded (outs : List (Option Error × Storage)) : Prop :=
  ∀ out ∈ outs, out.1 = none

instance (outs : List (Option Error × Storage)) : Decidable (Succeeded outs) := by
  unfold Succeeded
  infer_instance

/-- The capacity invariant of the single-writer case: the counter does not
exceed `maxRecords` and the store holds at most as many timestamps as the
counter says, or at most one when the capacity is zero. -/
def Storage.Bounded (s : Storage) : Prop :=
  s.maxRecords < 2 ^ 64 ∧ s.counter ≤ s.maxRecords ∧
    (s.keys.card ≤ s.counter ∨ (s.maxRecords = 0 ∧ s.keys.card ≤ 1))

/-- The state reached by a run of strictly increasing writes from the empty
store: the rows are held newest first with strictly decreasing timestamps, and
the counter is their number, within a capacity of at least one. -/
def Storage.Ordered (s : Storage) : Prop :=
  s.client.metrics.Pairwise (fun a b => a.1 > b.1) ∧ s.counter = s.client.metrics.length ∧
    s.counter ≤ s.maxRecords ∧ 1 ≤ s.maxRecords ∧ s.maxRecords < 2 ^ 64

/-- The state after the last call of a sequence of `Set` calls. -/
def Storage.final (s : Storage) (calls : List (Faults × Context × Record)) : Storage :=
  ((s.SetMany calls).getLast?.map Prod.snd).getD s

/-- The client calls of the write path all succeed. -/
def Faults.writeClean (f : Faults) : Prop :=
  f.queryAggregate = Option.none ∧ f.aggregateResult = Option.none ∧
    f.findNewKey = Option.none ∧ f.delete = Option.none ∧ f.newKey = Option.none ∧
    f.put = Option.none

instance (f : Faults) : Decidable f.writeClean := by
  unfold Faults.writeClean
  infer_instance

/-- The client calls of the read path all succeed. -/
def Faults.readClean (f : Faults) : Prop :=
  f.setFilter = Option.none ∧ f.query = Option.none ∧ f.queryResult = Option.none

instance (f : Faults) : Decidable f.readClean := by
  unfold Faults.readClean
  infer_instance

/-! ## internal/rrd/rrd.go -/

/-- The Go method `(*Service).GetByRange` over a `storageGetter` whose state has
type `σ`; `now` is `time.Now().UnixMicro()`. -/
def Service.GetByRange {σ : Type} (storageGetter : Context → Int → Int → σ → (Option (List Record) × Option Error) × σ)
    (now : Int) (ctx : Context) (start end_ : Int) (st : σ) :
    (Option (List Record) × Option Error) × σ :=
  let end1 : Int := if start = 0 ∧ end_ = 0 then now else end_
  match storageGetter ctx start end1 st with
  | ((_, some err), st1) => ((none, some (.wrap "failed to get records" err)), st1)
  | ((records, none), st1) => ((records, none), st1)

/-- The storage as the `storageGetter` of the service, as `NewApp` wires it
(`rrd.NewService(db, db)`); `f` gives the outcome of the client calls. -/
def Storage.getter (f : Faults) (ctx : Context) (min max : Int) (s : Storage) :
    (Option (List Record) × Option Error) × Storage :=
  s.GetByRange f ctx min max

/-! ## internal/httpsrv/handlers/rrd.go -/

/-- An `http.ResponseWriter`: the status code of the first `WriteHeader` (an
explicit one, or the implicit 200 of the first `Write`; later calls are
ignored) and the records whose JSON text has been written. -/
structure ResponseWriter where
  status : Option Nat
  body : Option (List Record)
  deriving DecidableEq

/-- The method `w.WriteHeader(code)`. -/
def ResponseWriter.WriteHeader (w : ResponseWriter) (code : Nat) : ResponseWriter :=
  match w.status with
  | some _ => w
  | none => { w with status := some code }

/-- The method `w.Write` of the JSON text of `records`. -/
def ResponseWriter.Write (w : ResponseWriter) (records : List Record) : ResponseWriter :=
  { (w.WriteHeader 200) with body := some records }

/-- The value of a string of decimal digits; `none` when the string is empty or
holds another character. -/
def digitsValue (cs : List Char) : Option Nat :=
  if cs.isEmpty then none
  else if cs.all Char.isDigit then some (cs.foldl (fun n c => 10 * n + (c.toNat - 48)) 0)
  else none

/-- Go's `strconv.ParseInt(s, 10, 64)`: an optional sign (`+`, code 43, or `-`,
code 45) and one or more decimal digits, with a value that fits an int64;
`none` stands for a non-nil error. -/
def ParseInt (s : String) : Option Int :=
  let signed : Bool × List Char :=
    match s.toList with
    | c :: rest =>
      if c = Char.ofNat 45 then (true, rest)
      else if c = Char.ofNat 43 then (false, rest)
      else (false, c :: rest)
    | [] => (false, [])
  match digitsValue signed.2 with
  | none => none
  | some n =>
    let v : Int := if signed.1 then -(n : Int) else (n : Int)
    if -(2 : Int) ^ 63 ≤ v ∧ v < (2 : Int) ^ 63 then some v else none

/-- What `encoding/json` refuses in a metric value: a float64 that is NaN or an
infinity (all eleven exponent bits set). -/
def jsonUnsupported (v : BinValue) : Bool :=
  match v with
  | BinValue.float64 bits => (bits / 2 ^ 52) % 2 ^ 11 == 2047
  | _ => false

/-- The call `json.NewEncoder(w).Encode(result)`: the text is built first, and
an unsupported value is an error before anything is written; otherwise the text
is written to `w`, and `writeFault` is the outcome of that write. -/
def Encode (w : ResponseWriter) (writeFault : Option Error) (result : List Record) :
    Option Error × ResponseWriter :=
  if result.any (fun r => jsonUnsupported r.MetricValue) then
    (some (Error.base "json: unsupported value"), w)
  else
    (writeFault, w.Write result)

/-- An `*http.Request` as the handler reads it: the method, the query
parameters `start` and `end` (empty when absent) and the context. -/
structure Request where
  Method : String
  start : String
  end_ : String
  ctx : Context
  deriving DecidableEq

/-- The Go method `(*RRD).GetByRange` over an `RRDGetter` whose state has type
`σ`. The logger calls are left out. -/
def handlers.RRD.GetByRange {σ : Type}
    (getter : Context → Int → Int → σ → (Option (List Record) × Option Error) × σ)
    (writeFault : Option Error) (w : ResponseWriter) (r : Request) (st : σ) :
    ResponseWriter × σ :=
  if r.Method ≠ "GET" then (w.WriteHeader 405, st)
  else
    match (if r.start ≠ "" then ParseInt r.start else some 0) with
    | none => (w.WriteHeader 400, st)
    | some start =>
      match (if r.end_ ≠ "" then ParseInt r.end_ else some 0) with
      | none => (w.WriteHeader 400, st)
      | some end1 =>
        if start > end1 ∨ start < 0 ∨ end1 < 0 then (w.WriteHeader 400, st)
        else
          match getter r.ctx start end1 st with
          | ((_, some _), st1) => (w.WriteHeader 500, st1)
          | ((result, none), st1) =>
            if (result.getD []).length = 0 then (w.WriteHeader 204, st1)
            else
              match Encode w writeFault (result.getD []) with
              | (some _, w1) => (w1.WriteHeader 500, st1)
              | (none, w1) => (w1.WriteHeader 200, st1)

/-- A getter that also records the bounds of every call made to it. -/
def recording {σ : Type}
    (getter : Context → Int → Int → σ → (Option (List Record) × Option Error) × σ)
    (ctx : Context) (start end_ : Int) (st : σ × List (Int × Int)) :
    (Option (List Record) × Option Error) × (σ × List (Int × Int)) :=
  ((getter ctx start end_ st.1).1, ((getter ctx start end_ st.1).2, st.2 ++ [(start, end_)]))

/-- A getter in the manner of `getterMock`: an error for a negative bound,
otherwise the records it was built with. -/
def getterMock (records : List Record) (_ctx : Context) (min max : Int) (st : Unit) :
    (Option (List Record) × Option Error) × Unit :=
  if min < 0 ∨ max < 0 then
    ((none, some (Error.wrap "failed to get by range" (Error.base "test error"))), st)
  else ((some records, none), st)

/-- A record whose metric value is a float64 NaN. -/
def nanRecord : Record :=
  { Timestamp := 1, MetricValue := BinValue.float64 0x7FF8000000000000 }

/-- The request `GET /metrics?start=..&end=..` with a live context. -/
def getRequest (start end_ : String) : Request :=
  { Method := "GET", start := start, end_ := end_, ctx := Context.live }

/-! ## internal/adaptors/storage/storage_test.go -/

/-- The Go test helper `testRecord`: the metric value is the float64 `3.5`. -/
def testRecord (ts : Int) : Record :=
  { Timestamp := ts, MetricValue := BinValue.float64 0x400C000000000000 }

/-- A storage over an empty backing store, with counter 0. -/
def Storage.empty (maxRecords : Nat) : Storage :=
  { maxRecords := maxRecords, counter := 0, client := { metrics := [], counter := none, log := [] },
    logger := [] }

/-- Calls of `Set` with a live context and no fault, one for each timestamp. -/
def testCalls (ts : List Int) : List (Faults × Context × Record) :=
  ts.map (fun t => (Faults.none, Context.live, testRecord t))

/-- A storage at capacity 2 holding the timestamps 1 and 2. -/
def fullOfTwo : Storage :=
  { maxRecords := 2, counter := 2,
    client := { metrics := [(2, BinValue.int 20), (1, BinValue.int 10)], counter := some (BinValue.int 2),
                log := [] },
    logger := [] }

/-- A storage holding one record with a negative timestamp. -/
def negativeStore : Storage :=
  { maxRecords := 5, counter := 1,
    client := { metrics := [(-5, BinValue.int 1)], counter := some (BinValue.int 1), log := [] },
    logger := [] }

/-- A backing store whose persisted counter is 10, as `TestStorage_SetCounter`
leaves it (`testCounter`), and no metrics. -/
def persistedTen : Backend :=
  { metrics := [], counter := some (BinValue.int 10), log := [] }

/-- A record without a metric value, as the body `{"timestamp": ts}` decodes. -/
def nilRecord (ts : Int) : Record :=
  { Timestamp := ts, MetricValue := BinValue.nil }

/-- Six writes with the timestamps 1 to 6, the last one without a metric value. -/
def nilLastCalls : List (Faults × Context × Record) :=
  testCalls [1, 2, 3, 4, 5] ++ [(Faults.none, Context.live, nilRecord 6)]

/-! ## Lemmas -/

theorem find_oldest_eq_none {m : List (Int × BinValue)} : find_oldest m = none ↔ m = [] := by
  cases m with
  | nil => simp [find_oldest]
  | cons p rest =>
    obtain ⟨k, v⟩ := p
    simp only [find_oldest]
    cases find_oldest rest <;> simp

theorem find_oldest_mem {m : List (Int × BinValue)} {k : Int} (h : find_oldest m = some k) :
    k ∈ m.map Prod.fst := by
  induction m generalizing k with
  | nil => simp [find_oldest] at h
  | cons p rest ih =>
    obtain ⟨a, v⟩ := p
    simp only [find_oldest] at h
    cases hr : find_oldest rest with
    | none =>
      rw [hr] at h
      simp only [Option.some.injEq] at h
      simp [h]
    | some b =>
      rw [hr] at h
      simp only [Option.some.injEq] at h
      have hb := ih hr
      rcases min_choice a b with hc | hc
      · rw [hc] at h; simp [h]
      · rw [hc] at h; subst h; simp only [List.map_cons, List.mem_cons]; exact Or.inr hb

theorem find_oldest_le {m : List (Int × BinValue)} {k : Int} (h : find_oldest m = some k) :
    ∀ j ∈ m.map Prod.fst, k ≤ j := by
  induction m generalizing k with
  | nil => simp
  | cons p rest ih =>
    obtain ⟨a, v⟩ := p
    simp only [find_oldest] at h
    intro j hj
    simp only [List.map_cons, List.mem_cons] at hj
    cases hr : find_oldest rest with
    | none =>
      rw [hr] at h
      simp only [Option.some.injEq] at h
      have hnil := find_oldest_eq_none.mp hr
      subst hnil
      simp at hj
      omega
    | some b =>
      rw [hr] at h
      simp only [Option.some.injEq] at h
      subst h
      rcases hj with hj | hj
      · subst hj; exact min_le_left _ _
      · exact le_trans (min_le_right _ _) (ih hr j hj)

theorem keys_put (m : List (Int × BinValue)) (k : Int) (v : BinValue) :
    (((k, v) :: m.filter (fun p => p.1 != k)).map Prod.fst).toFinset =
      insert k (m.map Prod.fst).toFinset := by
  ext j
  simp only [List.map_cons, List.toFinset_cons, Finset.mem_insert,
    List.mem_toFinset, List.mem_map, List.mem_filter, Prod.exists, exists_and_right, exists_eq_right,
    bne_iff_ne, ne_eq]
  constructor
  · rintro (h | ⟨h, _⟩)
    · exact Or.inl h
    · exact Or.inr h
  · rintro (h | h)
    · exact Or.inl h
    · by_cases hj : j = k
      · exact Or.inl hj
      · exact Or.inr ⟨h, hj⟩

theorem keys_delete (m : List (Int × BinValue)) (k : Int) :
    ((m.filter (fun p => p.1 != k)).map Prod.fst).toFinset = (m.map Prod.fst).toFinset.erase k := by
  ext j
  simp only [Finset.mem_erase,
    List.mem_toFinset, List.mem_map, List.mem_filter, Prod.exists, exists_and_right, exists_eq_right,
    bne_iff_ne, ne_eq]
  constructor
  · rintro ⟨h, hj⟩
    exact ⟨hj, h⟩
  · rintro ⟨hj, h⟩
    exact ⟨h, hj⟩

theorem evict_ok {s s1 : Storage} {f : Faults} {ctx : Context} (h : s.evict f ctx = (none, s1)) :
    ctx.Err = none ∧ f.queryAggregate = none ∧ f.aggregateResult = none ∧
    ((find_oldest s.client.metrics = none ∧
        s1 = { s with client := { s.client with log := s.client.log ++ [Op.queryAggregate] } }) ∨
      (∃ k, find_oldest s.client.metrics = some k ∧ f.delete = none ∧
        s1 = { s with client :=
          { metrics := s.client.metrics.filter (fun p => p.1 != k),
            counter := s.client.counter,
            log := s.client.log ++ [Op.queryAggregate, Op.delete k] } })) := by
  unfold Storage.evict Storage.FindOldestKey at h
  cases hctx : ctx.Err <;> cases hqa : f.queryAggregate <;> cases har : f.aggregateResult <;>
    cases hfo : find_oldest s.client.metrics <;> cases hnk : f.findNewKey <;>
    cases hd : f.delete <;>
    simp_all [Backend.Delete]

theorem evict_err {s s1 : Storage} {f : Faults} {ctx : Context} {e : Error}
    (h : s.evict f ctx = (some e, s1)) :
    s1.client.metrics = s.client.metrics ∧ s1.client.counter = s.client.counter ∧
    s1.counter = s.counter ∧ s1.maxRecords = s.maxRecords ∧ s1.logger = s.logger ∧
    (∀ k v, Op.put k v ∉ s.issued s1) ∧ (∀ v, Op.putCounter v ∉ s.issued s1) := by
  unfold Storage.evict Storage.FindOldestKey at h
  cases hctx : ctx.Err <;> cases hqa : f.queryAggregate <;> cases har : f.aggregateResult <;>
    cases hfo : find_oldest s.client.metrics <;> cases hnk : f.findNewKey <;>
    cases hd : f.delete <;>
    simp_all [Backend.Delete, Storage.issued] <;>
    (obtain ⟨_, h⟩ := h; subst h; simp)


theorem SetCounter_frame (s : Storage) (f : Faults) (ctx : Context) (v : Int) :
    (s.SetCounter f ctx v).client.metrics = s.client.metrics ∧
    (s.SetCounter f ctx v).counter = s.counter ∧
    (s.SetCounter f ctx v).maxRecords = s.maxRecords ∧
    ((s.SetCounter f ctx v).client.log = s.client.log ∨
      (s.SetCounter f ctx v).client.log = s.client.log ++ [Op.putCounter v]) := by
  unfold Storage.SetCounter
  cases hctx : ctx.Err <;> cases hnk : f.counterNewKey <;> cases hp : f.counterPut <;>
    simp [Backend.PutCounter]

/-- The state after the record of `Set` has been put into `s1`. -/
theorem Set_ok {s s' : Storage} {f : Faults} {ctx : Context} {r : Record}
    (h : s.Set f ctx r = (none, s')) :
    ctx.Err = none ∧ f.newKey = none ∧ f.put = none ∧
    ∃ s1, (if s.counter ≥ s.maxRecords then s.evict f ctx else (none, s)) = (none, s1) ∧
      s'.maxRecords = s1.maxRecords ∧
      s'.counter = (if s1.counter < s1.maxRecords then (s1.counter + 1) % 2 ^ 64 else s1.counter) ∧
      s'.client.metrics = (r.Timestamp, r.MetricValue) ::
        s1.client.metrics.filter (fun p => p.1 != r.Timestamp) ∧
      (s'.client.log = s1.client.log ++ [Op.put r.Timestamp r.MetricValue] ∨
        (s1.counter < s1.maxRecords ∧
          s'.client.log = s1.client.log ++ [Op.put r.Timestamp r.MetricValue,
            Op.putCounter (toInt64 ((s1.counter + 1) % 2 ^ 64))])) := by
  unfold Storage.Set at h
  cases hctx : ctx.Err with
  | some e => rw [hctx] at h; simp at h
  | none =>
    rw [hctx] at h
    simp only at h
    rcases hev : (if s.counter ≥ s.maxRecords then s.evict f ctx else (none, s)) with ⟨e1, s1⟩
    rw [hev] at h
    cases e1 with
    | some e => simp at h
    | none =>
      simp only at h
      cases hnk : f.newKey with
      | some e => rw [hnk] at h; simp at h
      | none =>
        rw [hnk] at h
        simp only at h
        cases hp : f.put with
        | some e => rw [hp] at h; simp [Backend.Put] at h
        | none =>
          rw [hp] at h
          simp only [Backend.Put] at h
          refine ⟨rfl, rfl, rfl, s1, rfl, ?_⟩
          by_cases hc : s1.counter < s1.maxRecords
          · rw [if_pos hc] at h
            simp only [Prod.mk.injEq, true_and] at h
            subst h
            obtain ⟨h1, h2, h3, h4⟩ := SetCounter_frame
              ⟨s1.maxRecords, (s1.counter + 1) % 2 ^ 64,
                ⟨(r.Timestamp, r.MetricValue) ::
                    s1.client.metrics.filter (fun p => p.1 != r.Timestamp),
                  s1.client.counter, s1.client.log ++ [Op.put r.Timestamp r.MetricValue]⟩,
                s1.logger⟩ f ctx (toInt64 ((s1.counter + 1) % 2 ^ 64))
            refine ⟨h3, ?_, h1, ?_⟩
            · rw [if_pos hc]; exact h2
            · rcases h4 with h4 | h4
              · exact Or.inl h4
              · right
                refine ⟨hc, ?_⟩
                rw [h4]
                simp
          · rw [if_neg hc] at h
            simp only [Prod.mk.injEq, true_and] at h
            subst h
            simp [hc]

theorem keys_nonempty_iff (s : Storage) : s.keys.Nonempty ↔ s.client.metrics ≠ [] := by
  unfold Storage.keys Backend.keys
  cases hm : s.client.metrics with
  | nil => simp
  | cons p rest => simp


theorem evict_ok_frame {s s1 : Storage} {f : Faults} {ctx : Context}
    (h : s.evict f ctx = (none, s1)) :
    s1.maxRecords = s.maxRecords ∧ s1.counter = s.counter ∧
    s1.keys.card ≤ s.keys.card - 1 := by
  obtain ⟨_, _, _, hcase⟩ := evict_ok h
  rcases hcase with ⟨hfo, hs1⟩ | ⟨k, hfo, _, hs1⟩
  · have hempty : s.client.metrics = [] := find_oldest_eq_none.mp hfo
    subst hs1
    simp [Storage.keys, Backend.keys, hempty]
  · have hmem : k ∈ s.keys := by
      unfold Storage.keys Backend.keys
      rw [List.mem_toFinset]
      exact find_oldest_mem hfo
    have hk1 : s1.keys = s.keys.erase k := by
      subst hs1
      exact keys_delete _ _
    have hc := Finset.card_erase_of_mem hmem
    subst hs1
    refine ⟨rfl, rfl, ?_⟩
    rw [hk1, hc]

theorem Set_ok_frame {s s' : Storage} {f : Faults} {ctx : Context} {r : Record}
    (h : s.Set f ctx r = (none, s')) :
    s'.maxRecords = s.maxRecords ∧
    s'.counter = (if s.counter < s.maxRecords then (s.counter + 1) % 2 ^ 64 else s.counter) ∧
    (s.counter < s.maxRecords → s'.keys.card ≤ s.keys.card + 1) ∧
    (s.counter ≥ s.maxRecords → s'.keys.card ≤ max s.keys.card 1) := by
  obtain ⟨_, _, _, s1, hev, hmax, hcnt, hm, _⟩ := Set_ok h
  have hkeys : s'.keys = insert r.Timestamp s1.keys := by
    unfold Storage.keys Backend.keys
    rw [hm]
    exact keys_put _ _ _
  have hcard : s'.keys.card ≤ s1.keys.card + 1 := by
    rw [hkeys]
    exact Finset.card_insert_le _ _
  by_cases hfull : s.counter ≥ s.maxRecords
  · rw [if_pos hfull] at hev
    obtain ⟨h1, h2, h3⟩ := evict_ok_frame hev
    rw [h1, h2] at hcnt
    refine ⟨hmax.trans h1, hcnt, ?_, ?_⟩
    · intro hlt; omega
    · intro _
      have : s.keys.card ≤ max s.keys.card 1 := le_max_left _ _
      have : 1 ≤ max s.keys.card 1 := le_max_right _ _
      omega
  · rw [if_neg hfull] at hev
    simp only [Prod.mk.injEq, true_and] at hev
    subst hev
    refine ⟨hmax, hcnt, ?_, ?_⟩
    · intro _; exact hcard
    · intro hf; exact absurd hf hfull

theorem Set_err_frame {s s' : Storage} {f : Faults} {ctx : Context} {r : Record} {e : Error}
    (h : s.Set f ctx r = (some e, s')) :
    s'.maxRecords = s.maxRecords ∧ s'.counter = s.counter ∧
    s'.client.counter = s.client.counter ∧ s'.logger = s.logger := by
  unfold Storage.Set at h
  cases hctx : ctx.Err with
  | some e0 =>
    rw [hctx] at h
    simp only [Prod.mk.injEq] at h
    obtain ⟨_, h⟩ := h
    subst h
    exact ⟨rfl, rfl, rfl, rfl⟩
  | none =>
    rw [hctx] at h
    simp only at h
    rcases hev : (if s.counter ≥ s.maxRecords then s.evict f ctx else (none, s)) with ⟨e1, s1⟩
    rw [hev] at h
    have hs1 : s1.maxRecords = s.maxRecords ∧ s1.counter = s.counter ∧
        s1.client.counter = s.client.counter ∧ s1.logger = s.logger := by
      by_cases hfull : s.counter ≥ s.maxRecords
      · rw [if_pos hfull] at hev
        cases e1 with
        | some e2 =>
          obtain ⟨_, h2, h3, h4, h5, _⟩ := evict_err hev
          exact ⟨h4, h3, h2, h5⟩
        | none =>
          obtain ⟨_, _, _, hcase⟩ := evict_ok hev
          rcases hcase with ⟨_, hs1⟩ | ⟨k, _, _, hs1⟩ <;> subst hs1 <;> exact ⟨rfl, rfl, rfl, rfl⟩
      · rw [if_neg hfull] at hev
        simp only [Prod.mk.injEq] at hev
        obtain ⟨_, hev⟩ := hev
        subst hev
        exact ⟨rfl, rfl, rfl, rfl⟩
    cases e1 with
    | some e2 =>
      simp only [Prod.mk.injEq] at h
      obtain ⟨_, h⟩ := h
      subst h
      exact hs1
    | none =>
      simp only at h
      cases hnk : f.newKey with
      | some e3 =>
        rw [hnk] at h
        simp only [Prod.mk.injEq] at h
        obtain ⟨_, h⟩ := h
        subst h
        exact hs1
      | none =>
        rw [hnk] at h
        simp only at h
        cases hp : f.put with
        | some e4 =>
          rw [hp] at h
          simp only [Backend.Put, Prod.mk.injEq] at h
          obtain ⟨_, h⟩ := h
          subst h
          exact hs1
        | none =>
          rw [hp] at h
          simp only [Backend.Put] at h
          split at h <;> simp at h

theorem Succeeded_cons {out : Option Error × Storage} {outs : List (Option Error × Storage)} :
    Succeeded (out :: outs) ↔ out.1 = none ∧ Succeeded outs := by
  unfold Succeeded
  exact List.forall_mem_cons

/-- A property kept by every successful `Set` holds after each call of a
successful sequence. -/
theorem SetMany_preserves (P : Storage → Prop)
    (step : ∀ (s s' : Storage) (f : Faults) (ctx : Context) (r : Record),
      P s → s.Set f ctx r = (none, s') → P s')
    (calls : List (Faults × Context × Record)) :
    ∀ s : Storage, P s → Succeeded (s.SetMany calls) → ∀ out ∈ s.SetMany calls, P out.2 := by
  induction calls with
  | nil => intro s _ _ out hout; simp [Storage.SetMany] at hout
  | cons c cs ih =>
    intro s hP hok out hout
    simp only [Storage.SetMany] at hok hout
    obtain ⟨h1, h2⟩ := Succeeded_cons.mp hok
    have hP1 : P (s.Set c.1 c.2.1 c.2.2).2 := step s _ c.1 c.2.1 c.2.2 hP (Prod.ext h1 rfl)
    rcases List.mem_cons.mp hout with h | h
    · rw [h]; exact hP1
    · exact ih _ hP1 h2 out h

theorem Set_Bounded {s s' : Storage} {f : Faults} {ctx : Context} {r : Record}
    (hb : s.Bounded) (h : s.Set f ctx r = (none, s')) : s'.Bounded ∧ s'.maxRecords = s.maxRecords := by
  obtain ⟨h1, h2, h3, h4⟩ := Set_ok_frame h
  obtain ⟨b1, b2, b3⟩ := hb
  unfold Storage.Bounded
  rw [h1]
  by_cases hlt : s.counter < s.maxRecords
  · rw [if_pos hlt] at h2
    have hmod : (s.counter + 1) % 2 ^ 64 = s.counter + 1 := Nat.mod_eq_of_lt (by omega)
    rw [hmod] at h2
    have := h3 hlt
    refine ⟨⟨b1, by omega, ?_⟩, rfl⟩
    left
    omega
  · rw [if_neg hlt] at h2
    have := h4 (Nat.not_lt.mp hlt)
    have hm1 : max s.keys.card 1 ≤ s.keys.card + 1 := by omega
    refine ⟨⟨b1, by omega, ?_⟩, rfl⟩
    rcases b3 with b3 | ⟨b3, b4⟩
    · by_cases hz : s.maxRecords = 0
      · right
        refine ⟨hz, ?_⟩
        have : s.keys.card = 0 := by omega
        have h5 := h4 (Nat.not_lt.mp hlt)
        rw [this] at h5
        simpa using h5
      · left
        have : max s.keys.card 1 ≤ s.counter := by
          apply max_le <;> omega
        omega
    · right
      refine ⟨b3, ?_⟩
      have : max s.keys.card 1 ≤ 1 := max_le b4 (le_refl 1)
      omega

/-- The counter along a successful sequence of `Set` calls: it stays within
`maxRecords` and each call leaves it at least as large as before. -/
theorem SetMany_counter (calls : List (Faults × Context × Record)) :
    ∀ s : Storage, s.maxRecords < 2 ^ 64 → s.counter ≤ s.maxRecords →
      Succeeded (s.SetMany calls) →
      (∀ out ∈ s.SetMany calls, out.2.counter ≤ s.maxRecords) ∧
      List.Chain (fun a b => a ≤ b) s.counter ((s.SetMany calls).map (fun out => out.2.counter)) := by
  induction calls with
  | nil =>
    intro s _ _ _
    simp [Storage.SetMany]
  | cons c cs ih =>
    intro s hmax hle hok
    simp only [Storage.SetMany] at hok ⊢
    obtain ⟨h1, h2⟩ := Succeeded_cons.mp hok
    obtain ⟨f1, f2, _, _⟩ := Set_ok_frame (Prod.ext h1 rfl :
      s.Set c.1 c.2.1 c.2.2 = (none, (s.Set c.1 c.2.1 c.2.2).2))
    have hstep : s.counter ≤ (s.Set c.1 c.2.1 c.2.2).2.counter ∧
        (s.Set c.1 c.2.1 c.2.2).2.counter ≤ s.maxRecords := by
      rw [f2]
      by_cases hlt : s.counter < s.maxRecords
      · rw [if_pos hlt, Nat.mod_eq_of_lt (by omega)]
        omega
      · rw [if_neg hlt]
        omega
    obtain ⟨i1, i2⟩ := ih (s.Set c.1 c.2.1 c.2.2).2 (by rw [f1]; exact hmax)
      (by rw [f1]; exact hstep.2) h2
    rw [f1] at i1
    refine ⟨?_, ?_⟩
    · intro out hout
      rcases List.mem_cons.mp hout with h | h
      · rw [h]; exact hstep.2
      · exact i1 out h
    · simp only [List.map_cons]
      exact List.Chain.cons hstep.1 i2

theorem find_oldest_of_sorted (m : List (Int × BinValue))
    (hs : m.Pairwise (fun a b => a.1 > b.1)) (hne : m ≠ []) :
    ∃ k, find_oldest m = some k ∧ m.filter (fun p => p.1 != k) = m.dropLast := by
  induction m with
  | nil => exact absurd rfl hne
  | cons p rest ih =>
    obtain ⟨hp, hrest⟩ := List.pairwise_cons.mp hs
    by_cases hr : rest = []
    · subst hr
      refine ⟨p.1, by simp [find_oldest], by simp⟩
    · obtain ⟨k, hk, hf⟩ := ih hrest hr
      have hmem : k ∈ rest.map Prod.fst := find_oldest_mem hk
      obtain ⟨q, hq, hqk⟩ := List.mem_map.mp hmem
      have hlt : p.1 > k := by rw [← hqk]; exact hp q hq
      refine ⟨k, ?_, ?_⟩
      · simp only [find_oldest, hk]
        rw [min_eq_right (le_of_lt hlt)]
      · have hpk : (p.1 != k) = true := by simp; omega
        rw [List.dropLast_cons_of_ne_nil hr, ← hf]
        simp only [List.filter_cons, hpk, if_true]

theorem filter_ne_of_lt (m : List (Int × BinValue)) (t : Int) (h : ∀ p ∈ m, p.1 < t) :
    m.filter (fun p => p.1 != t) = m := by
  rw [List.filter_eq_self]
  intro p hp
  have := h p hp
  simp
  omega

theorem Set_Ordered {s s' : Storage} {f : Faults} {ctx : Context} {r : Record}
    (hJ : s.Ordered) (hnew : ∀ p ∈ s.client.metrics, p.1 < r.Timestamp)
    (h : s.Set f ctx r = (none, s')) :
    s'.client.metrics = ((r.Timestamp, r.MetricValue) :: s.client.metrics).take s.maxRecords ∧
    s'.Ordered ∧ s'.maxRecords = s.maxRecords := by
  obtain ⟨j1, j2, j3, j4, j5⟩ := hJ
  obtain ⟨f1, f2, _, _⟩ := Set_ok_frame h
  obtain ⟨_, _, _, s1, hev, _, _, hm, _⟩ := Set_ok h
  have hpw : ((r.Timestamp, r.MetricValue) :: s.client.metrics).Pairwise (fun a b => a.1 > b.1) :=
    List.pairwise_cons.mpr ⟨fun p hp => hnew p hp, j1⟩
  have hmetrics : s'.client.metrics =
      ((r.Timestamp, r.MetricValue) :: s.client.metrics).take s.maxRecords := by
    by_cases hfull : s.counter ≥ s.maxRecords
    · rw [if_pos hfull] at hev
      have hlen : s.client.metrics.length = s.maxRecords := by omega
      have hne : s.client.metrics ≠ [] := by
        intro h0
        rw [h0] at hlen
        simp at hlen
        omega
      obtain ⟨k, hk, hf⟩ := find_oldest_of_sorted _ j1 hne
      obtain ⟨_, _, _, hcase⟩ := evict_ok hev
      rcases hcase with ⟨hfo, _⟩ | ⟨k', hfo, _, hs1⟩
      · rw [hfo] at hk; simp at hk
      · rw [hfo] at hk
        simp only [Option.some.injEq] at hk
        subst hk
        rw [hm]
        subst hs1
        simp only
        rw [hf, filter_ne_of_lt _ _ (fun p hp => hnew p (List.dropLast_subset _ hp))]
        rw [List.dropLast_eq_take, ← hlen]
        cases hml : s.client.metrics with
        | nil => exact absurd hml hne
        | cons a l => simp
    · rw [if_neg hfull] at hev
      simp only [Prod.mk.injEq, true_and] at hev
      subst hev
      rw [hm, filter_ne_of_lt _ _ hnew]
      rw [List.take_of_length_le]
      simp only [List.length_cons]
      omega
  refine ⟨hmetrics, ⟨?_, ?_, ?_, ?_, ?_⟩, f1⟩
  · rw [hmetrics]
    exact hpw.sublist (List.take_sublist _ _)
  · rw [f2, hmetrics, List.length_take, List.length_cons]
    by_cases hlt : s.counter < s.maxRecords
    · rw [if_pos hlt, Nat.mod_eq_of_lt (by omega)]
      omega
    · rw [if_neg hlt]
      omega
  · rw [f2, f1]
    by_cases hlt : s.counter < s.maxRecords
    · rw [if_pos hlt, Nat.mod_eq_of_lt (by omega)]
      omega
    · rw [if_neg hlt]
      omega
  · rw [f1]; exact j4
  · rw [f1]; exact j5

theorem final_nil (s : Storage) : s.final [] = s := rfl

theorem final_cons (s : Storage) (c : Faults × Context × Record)
    (cs : List (Faults × Context × Record)) :
    s.final (c :: cs) = (s.Set c.1 c.2.1 c.2.2).2.final cs := by
  cases cs with
  | nil => rfl
  | cons c1 cs1 =>
    unfold Storage.final
    simp only [Storage.SetMany, List.getLast?_cons_cons]
    rw [List.getLast?_cons]
    rfl

theorem take_append_take {α : Type} (xs ys : List α) (n : Nat) :
    (xs ++ ys.take n).take n = (xs ++ ys).take n := by
  rw [List.take_append_eq_append_take, List.take_append_eq_append_take, List.take_take]
  congr 2
  omega

/-- A successful run of strictly increasing writes, all newer than the rows
held, keeps the newest `maxRecords` rows. -/
theorem SetMany_Ordered (calls : List (Faults × Context × Record)) :
    ∀ s : Storage, s.Ordered →
      (∀ p ∈ s.client.metrics, ∀ c ∈ calls, p.1 < c.2.2.Timestamp) →
      (calls.map (fun c => c.2.2.Timestamp)).Pairwise (fun a b => a < b) →
      Succeeded (s.SetMany calls) →
      (s.final calls).client.metrics =
        ((calls.reverse.map (fun c => (c.2.2.Timestamp, c.2.2.MetricValue))) ++
          s.client.metrics).take s.maxRecords ∧
      (s.final calls).Ordered ∧ (s.final calls).maxRecords = s.maxRecords := by
  induction calls with
  | nil =>
    intro s hJ _ _ _
    rw [final_nil]
    refine ⟨?_, hJ, rfl⟩
    simp only [List.reverse_nil, List.map_nil, List.nil_append]
    rw [List.take_of_length_le]
    obtain ⟨_, j2, j3, _⟩ := hJ
    omega
  | cons c cs ih =>
    intro s hJ hnew hts hok
    simp only [Storage.SetMany] at hok
    obtain ⟨h1, h2⟩ := Succeeded_cons.mp hok
    simp only [List.map_cons, List.pairwise_cons] at hts
    obtain ⟨hc, hts⟩ := hts
    obtain ⟨m1, J1, e1⟩ := Set_Ordered hJ (fun p hp => hnew p hp c (List.mem_cons_self _ _))
      (Prod.ext h1 rfl : s.Set c.1 c.2.1 c.2.2 = (none, (s.Set c.1 c.2.1 c.2.2).2))
    have hnew1 : ∀ p ∈ (s.Set c.1 c.2.1 c.2.2).2.client.metrics, ∀ c1 ∈ cs,
        p.1 < c1.2.2.Timestamp := by
      intro p hp c1 hc1
      rw [m1] at hp
      rcases List.mem_cons.mp (List.take_subset _ _ hp) with h | h
      · rw [h]
        exact hc _ (List.mem_map.mpr ⟨c1, hc1, rfl⟩)
      · exact hnew p h c1 (List.mem_cons_of_mem _ hc1)
    obtain ⟨m2, J2, e2⟩ := ih _ J1 hnew1 hts h2
    rw [final_cons]
    refine ⟨?_, J2, e2.trans e1⟩
    rw [m2, m1, e1, take_append_take]
    simp

theorem lookup_timestamp_bins (row : Int × BinValue) :
    (Backend.bins row).lookup "timestamp" = some (BinValue.int row.1) := by
  unfold Backend.bins
  split <;> simp [List.lookup]

theorem lookup_metric_bins (row : Int × BinValue) :
    (Backend.bins row).lookup "metric_value" =
      if row.2 = BinValue.nil then none else some row.2 := by
  unfold Backend.bins
  split
  · next h => simp [List.lookup, h]
  · next h =>
    have hne : ¬ row.2 = BinValue.nil := fun h0 => h h0
    rw [if_neg hne]
    simp [List.lookup]

/-- The decoding loop over the rows of the store: it returns the rows as
records when none of them lacks its value, and an error otherwise. -/
theorem decodeResults_bins (rows : List (Int × BinValue)) :
    ∀ acc : List Record, decodeResults (rows.map Backend.bins) acc =
      if ∀ p ∈ rows, p.2 ≠ BinValue.nil then
        (some (acc ++ rows.map (fun p => (⟨p.1, p.2⟩ : Record))), none)
      else (none, some (Error.base "failed to cast metric_value to float64")) := by
  induction rows with
  | nil =>
    intro acc
    simp [decodeResults]
  | cons row rest ih =>
    intro acc
    simp only [List.map_cons, decodeResults, lookup_timestamp_bins, lookup_metric_bins]
    by_cases hnil : row.2 = BinValue.nil
    · rw [if_pos hnil]
      simp only
      rw [if_neg]
      intro hall
      exact hall row (List.mem_cons_self _ _) hnil
    · rw [if_neg hnil]
      simp only
      rw [ih]
      by_cases hall : ∀ p ∈ rest, p.2 ≠ BinValue.nil
      · rw [if_pos hall, if_pos]
        · simp
        · intro p hp
          rcases List.mem_cons.mp hp with h | h
          · rw [h]; exact hnil
          · exact hall p h
      · rw [if_neg hall, if_neg]
        intro hall2
        exact hall (fun p hp => hall2 p (List.mem_cons_of_mem _ hp))

/-- The result of a range read: with a live context and no client error it is
the rows of the window as records when none of them lacks its value, and every
result that is returned is of that kind. -/
theorem GetByRange_result (s : Storage) (f : Faults) (ctx : Context) (lo hi : Int) :
    (ctx.Err = none → f.setFilter = none → f.query = none → f.queryResult = none →
      (∀ p ∈ s.client.metrics, lo ≤ p.1 → p.1 ≤ hi → p.2 ≠ BinValue.nil) →
      (s.GetByRange f ctx lo hi).1 =
        (some ((s.client.metrics.filter (fun p => decide (lo ≤ p.1) && decide (p.1 ≤ hi))).map
          (fun p => (⟨p.1, p.2⟩ : Record))), none)) ∧
    (∀ res, (s.GetByRange f ctx lo hi).1.1 = some res →
      res = (s.client.metrics.filter (fun p => decide (lo ≤ p.1) && decide (p.1 ≤ hi))).map
          (fun p => (⟨p.1, p.2⟩ : Record)) ∧
      ∀ p ∈ s.client.metrics, lo ≤ p.1 → p.1 ≤ hi → p.2 ≠ BinValue.nil) := by
  have hiff : (∀ p ∈ s.client.metrics.filter (fun p => decide (lo ≤ p.1) && decide (p.1 ≤ hi)),
      p.2 ≠ BinValue.nil) ↔
      ∀ p ∈ s.client.metrics, lo ≤ p.1 → p.1 ≤ hi → p.2 ≠ BinValue.nil := by
    constructor
    · intro h p hp h1 h2
      exact h p (List.mem_filter.mpr ⟨hp, by simp [h1, h2]⟩)
    · intro h p hp
      obtain ⟨hp1, hp2⟩ := List.mem_filter.mp hp
      simp only [Bool.and_eq_true, decide_eq_true_eq] at hp2
      exact h p hp1 hp2.1 hp2.2
  have hdec := decodeResults_bins
    (s.client.metrics.filter (fun p => decide (lo ≤ p.1) && decide (p.1 ≤ hi))) []
  refine ⟨?_, ?_⟩
  · intro h1 h2 h3 h4 hall
    unfold Storage.GetByRange
    rw [h1, h2, h3, h4]
    simp only [Backend.Query]
    rw [hdec, if_pos (hiff.mpr hall)]
    simp
  · intro res hres
    unfold Storage.GetByRange at hres
    cases h1 : ctx.Err <;> cases h2 : f.setFilter <;> cases h3 : f.query <;>
      cases h4 : f.queryResult <;> rw [h1, h2, h3, h4] at hres <;> simp at hres
    simp only [Backend.Query] at hres
    rw [hdec] at hres
    by_cases hall : ∀ p ∈ s.client.metrics.filter
        (fun p => decide (lo ≤ p.1) && decide (p.1 ≤ hi)), p.2 ≠ BinValue.nil
    · rw [if_pos hall] at hres
      simp only [List.nil_append, Option.some.injEq] at hres
      exact ⟨hres.symm, hiff.mp hall⟩
    · rw [if_neg hall] at hres
      simp at hres

theorem filter_key_put (m : List (Int × BinValue)) (t : Int) (v : BinValue) :
    ((t, v) :: m.filter (fun p => p.1 != t)).filter (fun p => p.1 == t) = [(t, v)] := by
  rw [List.filter_cons_of_pos (by simp)]
  congr 1
  rw [List.filter_filter, List.filter_eq_nil_iff]
  intro p _
  simp

theorem evict_fails {s : Storage} {f : Faults} {ctx : Context} (hctx : ctx.Err = none)
    (hfail : f.queryAggregate ≠ none ∨ f.aggregateResult ≠ none ∨
      (s.client.metrics ≠ [] ∧ f.delete ≠ none)) :
    ∃ e, (s.evict f ctx).1 = some e := by
  unfold Storage.evict Storage.FindOldestKey
  rw [hctx]
  cases hqa : f.queryAggregate with
  | some e => simp
  | none =>
    cases har : f.aggregateResult with
    | some e => simp
    | none =>
      rcases hfail with h | h | ⟨hne, hd⟩
      · exact absurd hqa h
      · exact absurd har h
      · cases hfo : find_oldest s.client.metrics with
        | none => exact absurd (find_oldest_eq_none.mp hfo) hne
        | some k =>
          cases hnk : f.findNewKey with
          | some e => simp [hfo]
          | none =>
            cases hdel : f.delete with
            | none => exact absurd hdel hd
            | some e => simp [hfo, Backend.Delete]

theorem Set_counter_le {s : Storage} (f : Faults) (ctx : Context) (r : Record)
    (hmax : s.maxRecords < 2 ^ 64) (hle : s.counter ≤ s.maxRecords) :
    (s.Set f ctx r).2.counter ≤ s.maxRecords := by
  cases hres : (s.Set f ctx r).1 with
  | none =>
    obtain ⟨_, f2, _, _⟩ := Set_ok_frame (Prod.ext hres rfl :
      s.Set f ctx r = (none, (s.Set f ctx r).2))
    rw [f2]
    by_cases hlt : s.counter < s.maxRecords
    · rw [if_pos hlt, Nat.mod_eq_of_lt (by omega)]; omega
    · rw [if_neg hlt]; exact hle
  | some e =>
    obtain ⟨_, f2, _, _⟩ := Set_err_frame (Prod.ext hres rfl :
      s.Set f ctx r = (some e, (s.Set f ctx r).2))
    rw [f2]; exact hle

theorem filter_ne_self_of_mem {m : List (Int × BinValue)} {k : Int}
    (hk : k ∈ m.map Prod.fst) : m.filter (fun p => p.1 != k) ≠ m := by
  intro h
  rw [List.filter_eq_self] at h
  obtain ⟨p, hp, hpk⟩ := List.mem_map.mp hk
  have := h p hp
  simp [hpk] at this

/-- The state after a `Set` that returned an error: the rows are those that the
eviction step left, and nothing else changed in them. -/
theorem Set_err_rows {s s' : Storage} {f : Faults} {ctx : Context} {r : Record} {e : Error}
    (h : s.Set f ctx r = (some e, s')) :
    (s'.client.metrics = s.client.metrics ∧
      ¬ (s.counter ≥ s.maxRecords ∧ s.client.metrics ≠ [] ∧ (s.evict f ctx).1 = none)) ∨
    (∃ k, find_oldest s.client.metrics = some k ∧
      s'.client.metrics = s.client.metrics.filter (fun p => p.1 != k) ∧
      s.counter ≥ s.maxRecords ∧ (s.evict f ctx).1 = none ∧
      (f.newKey ≠ none ∨ f.put ≠ none)) := by
  unfold Storage.Set at h
  cases hctx : ctx.Err with
  | some e0 =>
    rw [hctx] at h
    simp only [Prod.mk.injEq] at h
    obtain ⟨_, h⟩ := h
    subst h
    left
    refine ⟨rfl, ?_⟩
    rintro ⟨_, _, hev⟩
    obtain ⟨hc, _⟩ := evict_ok (Prod.ext hev rfl : s.evict f ctx = (none, (s.evict f ctx).2))
    rw [hctx] at hc
    exact absurd hc (by simp)
  | none =>
    rw [hctx] at h
    simp only at h
    by_cases hfull : s.counter ≥ s.maxRecords
    · rw [if_pos hfull] at h
      rcases hev : s.evict f ctx with ⟨e1, s1⟩
      rw [hev] at h
      cases e1 with
      | some e2 =>
        simp only [Prod.mk.injEq] at h
        obtain ⟨_, h⟩ := h
        subst h
        obtain ⟨hm, _⟩ := evict_err hev
        left
        refine ⟨hm, ?_⟩
        rintro ⟨_, _, hn⟩
        simp at hn
      | none =>
        simp only at h
        have hs' : s'.client.metrics = s1.client.metrics ∧ (f.newKey ≠ none ∨ f.put ≠ none) := by
          cases hnk : f.newKey with
          | some e3 =>
            rw [hnk] at h
            simp only [Prod.mk.injEq] at h
            obtain ⟨_, h⟩ := h
            subst h
            exact ⟨rfl, Or.inl (by simp)⟩
          | none =>
            rw [hnk] at h
            simp only at h
            cases hp : f.put with
            | some e4 =>
              rw [hp] at h
              simp only [Backend.Put, Prod.mk.injEq] at h
              obtain ⟨_, h⟩ := h
              subst h
              exact ⟨rfl, Or.inr (by simp)⟩
            | none =>
              rw [hp] at h
              simp only [Backend.Put] at h
              split at h <;> simp at h
        obtain ⟨_, _, _, hcase⟩ := evict_ok hev
        rcases hcase with ⟨hfo, hs1⟩ | ⟨k, hfo, _, hs1⟩
        · left
          refine ⟨?_, ?_⟩
          · rw [hs'.1, hs1]
          · rintro ⟨_, hne, _⟩
            exact hne (find_oldest_eq_none.mp hfo)
        · right
          refine ⟨k, hfo, ?_, hfull, rfl, hs'.2⟩
          rw [hs'.1, hs1]
    · rw [if_neg hfull] at h
      simp only at h
      left
      refine ⟨?_, fun hh => hfull hh.1⟩
      cases hnk : f.newKey with
      | some e3 =>
        rw [hnk] at h
        simp only [Prod.mk.injEq] at h
        obtain ⟨_, h⟩ := h
        subst h
        rfl
      | none =>
        rw [hnk] at h
        simp only at h
        cases hp : f.put with
        | some e4 =>
          rw [hp] at h
          simp only [Backend.Put, Prod.mk.injEq] at h
          obtain ⟨_, h⟩ := h
          subst h
          rfl
        | none =>
          rw [hp] at h
          simp only [Backend.Put] at h
          split at h <;> simp at h

theorem Encode_fresh_status (writeFault : Option Error) (result : List Record) (code : Nat) :
    (((Encode ⟨none, none⟩ writeFault result).2.WriteHeader code).status =
        if result.any (fun r => jsonUnsupported r.MetricValue) then some code else some 200) ∧
    ((Encode ⟨none, none⟩ writeFault result).1 ≠ none →
      ¬ (result.any (fun r => jsonUnsupported r.MetricValue)) →
      ((Encode ⟨none, none⟩ writeFault result).2.WriteHeader 500).status = some 200) := by
  unfold Encode
  by_cases h : result.any (fun r => jsonUnsupported r.MetricValue) = true
  · simp only [h, if_true]
    exact ⟨rfl, fun _ hn => absurd trivial hn⟩
  · simp only [h]
    exact ⟨rfl, fun _ _ => rfl⟩

/-- A `Set` with a live context whose client calls all succeed returns a nil
error. -/
theorem Set_succeeds (s : Storage) (f : Faults) (ctx : Context) (r : Record)
    (hctx : ctx.Err = none) (hf : f.writeClean) : (s.Set f ctx r).1 = none := by
  obtain ⟨h1, h2, h3, h4, h5, h6⟩ := hf
  unfold Storage.Set Storage.evict Storage.FindOldestKey
  rw [hctx, h1, h2, h3, h4, h5, h6]
  by_cases hfull : s.counter ≥ s.maxRecords
  · simp only [if_pos hfull]
    cases hfo : find_oldest s.client.metrics with
    | none =>
      simp only [Backend.Put]
      split <;> rfl
    | some k =>
      simp only [Backend.Delete, Backend.Put]
      split <;> rfl
  · simp only [if_neg hfull, Backend.Put]
    split <;> rfl

/-- A sequence of `Set` calls with live contexts whose client calls all succeed
is a successful sequence. -/
theorem SetMany_succeeds (calls : List (Faults × Context × Record)) :
    ∀ s : Storage, (∀ c ∈ calls, c.2.1.Err = none ∧ c.1.writeClean) →
      Succeeded (s.SetMany calls) := by
  induction calls with
  | nil =>
    intro s _ out hout
    simp [Storage.SetMany] at hout
  | cons c cs ih =>
    intro s hall
    simp only [Storage.SetMany]
    refine Succeeded_cons.mpr ⟨?_, ?_⟩
    · exact Set_succeeds s c.1 c.2.1 c.2.2 (hall c (List.mem_cons_self _ _)).1
        (hall c (List.mem_cons_self _ _)).2
    · exact ih _ (fun c1 hc1 => hall c1 (List.mem_cons_of_mem _ hc1))

theorem GetByRange_some_clean (s : Storage) (f : Faults) (ctx : Context) (lo hi : Int)
    (res : List Record) (hres : (s.GetByRange f ctx lo hi).1.1 = some res) :
    ctx.Err = none ∧ f.readClean := by
  unfold Storage.GetByRange at hres
  cases h1 : ctx.Err <;> cases h2 : f.setFilter <;> cases h3 : f.query <;>
    cases h4 : f.queryResult <;> rw [h1, h2, h3, h4] at hres <;> simp at hres
  exact ⟨rfl, h2, h3, h4⟩

/-- The window of `Service.GetByRange`: `(0, 0)` at time `now` passes `[0, now]`
to the storage getter and every other pair unchanged; a nil error of the getter
is returned with its records and an error is returned wrapped with a nil record
list. Over the storage, when nothing fails and no row of the window lacks its
value, `(0, 0)` issues the query `[0, now]` and returns the stored records whose
timestamp lies between 0 and `now`, both included. -/
theorem Service_GetByRange_window {σ : Type}
    (storageGetter : Context → Int → Int → σ → (Option (List Record) × Option Error) × σ)
    (now : Int) (ctx : Context) (start end_ : Int) (st : σ) (s : Storage) (f : Faults) :
    (∀ recs st1, storageGetter ctx 0 now st = ((recs, none), st1) →
      Service.GetByRange storageGetter now ctx 0 0 st = ((recs, none), st1)) ∧
    (∀ recs err st1, storageGetter ctx 0 now st = ((recs, some err), st1) →
      Service.GetByRange storageGetter now ctx 0 0 st =
        ((none, some (Error.wrap "failed to get records" err)), st1)) ∧
    (¬ (start = 0 ∧ end_ = 0) →
      (∀ recs st1, storageGetter ctx start end_ st = ((recs, none), st1) →
        Service.GetByRange storageGetter now ctx start end_ st = ((recs, none), st1)) ∧
      (∀ recs err st1, storageGetter ctx start end_ st = ((recs, some err), st1) →
        Service.GetByRange storageGetter now ctx start end_ st =
          ((none, some (Error.wrap "failed to get records" err)), st1))) ∧
    (ctx.Err = none → f.readClean →
      (∀ p ∈ s.client.metrics, 0 ≤ p.1 → p.1 ≤ now → p.2 ≠ BinValue.nil) →
      (Service.GetByRange (Storage.getter f) now ctx 0 0 s).1 =
        (some ((s.client.metrics.filter (fun p => decide (0 ≤ p.1) && decide (p.1 ≤ now))).map
          (fun p => (⟨p.1, p.2⟩ : Record))), none) ∧
      s.issued (Service.GetByRange (Storage.getter f) now ctx 0 0 s).2 = [Op.query 0 now]) := by
  refine ⟨?_, ?_, ?_, ?_⟩
  · intro recs st1 h
    simp only [Service.GetByRange, and_self, if_true]
    rw [h]
  · intro recs err st1 h
    simp only [Service.GetByRange, and_self, if_true]
    rw [h]
  · intro hne
    refine ⟨?_, ?_⟩
    · intro recs st1 h
      simp only [Service.GetByRange, if_neg hne]
      rw [h]
    · intro recs err st1 h
      simp only [Service.GetByRange, if_neg hne]
      rw [h]
  · intro h1 ⟨h2, h3, h4⟩ hall
    have hres := (GetByRange_result s f ctx 0 now).1 h1 h2 h3 h4 hall
    have hst : (s.GetByRange f ctx 0 now).2 =
        { s with client := { s.client with log := s.client.log ++ [Op.query 0 now] } } := by
      unfold Storage.GetByRange
      rw [h1, h2, h3, h4]
    rcases hg : s.GetByRange f ctx 0 now with ⟨⟨recs, err⟩, st1⟩
    rw [hg] at hres hst
    simp only [Prod.mk.injEq] at hres
    obtain ⟨hr, he⟩ := hres
    simp only at hst
    simp only [Service.GetByRange, and_self, if_true, Storage.getter, hg, he, hr, hst,
      Storage.issued]
    simp

/-! ## Claims -/

/-- C1: a successful `Set` issues a delete exactly when the counter had reached
`maxRecords` and the store was non-empty; it then deletes the smallest
timestamp present, before the put, and the key set becomes the old keys without
that minimum plus the new timestamp; otherwise the key set becomes the old keys
plus the new timestamp. -/
theorem Set_evicts_oldest_iff_full (s s' : Storage) (f : Faults) (ctx : Context) (r : Record)
    (h : s.Set f ctx r = (none, s')) :
    ((∃ k, Op.delete k ∈ s.issued s') ↔ (s.counter ≥ s.maxRecords ∧ s.keys.Nonempty)) ∧
    (s.counter ≥ s.maxRecords → s.keys.Nonempty →
      ∃ k ∈ s.keys, (∀ j ∈ s.keys, k ≤ j) ∧
        s.issued s' = [Op.queryAggregate, Op.delete k, Op.put r.Timestamp r.MetricValue] ∧
        s'.keys = insert r.Timestamp (s.keys.erase k)) ∧
    (s.counter < s.maxRecords → s'.keys = insert r.Timestamp s.keys) ∧
    (¬ s.keys.Nonempty → s'.keys = insert r.Timestamp s.keys) := by
  obtain ⟨_, _, _, s1, hev, _, _, hm, hlog⟩ := Set_ok h
  have hkeys : s'.keys = insert r.Timestamp s1.keys := by
    unfold Storage.keys Backend.keys
    rw [hm]
    exact keys_put _ _ _
  by_cases hfull : s.counter ≥ s.maxRecords
  · rw [if_pos hfull] at hev
    obtain ⟨_, _, _, hcase⟩ := evict_ok hev
    rcases hcase with ⟨hfo, hs1⟩ | ⟨k, hfo, _, hs1⟩
    · have hempty : s.client.metrics = [] := find_oldest_eq_none.mp hfo
      have hne : ¬ s.keys.Nonempty := by rw [keys_nonempty_iff]; simp [hempty]
      have hk1 : s1.keys = s.keys := by subst hs1; rfl
      have hnot : ¬ s1.counter < s1.maxRecords := by subst hs1; exact Nat.not_lt.mpr hfull
      have hl : s.issued s' = [Op.queryAggregate, Op.put r.Timestamp r.MetricValue] := by
        rcases hlog with hl | ⟨hlt, _⟩
        · unfold Storage.issued
          rw [hl]
          subst hs1
          simp
        · exact absurd hlt hnot
      refine ⟨?_, ?_, ?_, ?_⟩
      · rw [hl]
        simp [hne]
      · intro _ hn
        exact absurd hn hne
      · intro hlt
        exact absurd hfull (Nat.not_le.mpr hlt)
      · intro _
        rw [hkeys, hk1]
    · have hmem : k ∈ s.keys := by
        unfold Storage.keys Backend.keys
        rw [List.mem_toFinset]
        exact find_oldest_mem hfo
      have hmin : ∀ j ∈ s.keys, k ≤ j := by
        intro j hj
        unfold Storage.keys Backend.keys at hj
        rw [List.mem_toFinset] at hj
        exact find_oldest_le hfo j hj
      have hne : s.keys.Nonempty := ⟨k, hmem⟩
      have hk1 : s1.keys = s.keys.erase k := by
        subst hs1
        exact keys_delete _ _
      have hnot : ¬ s1.counter < s1.maxRecords := by subst hs1; exact Nat.not_lt.mpr hfull
      have hl : s.issued s' =
          [Op.queryAggregate, Op.delete k, Op.put r.Timestamp r.MetricValue] := by
        rcases hlog with hl | ⟨hlt, _⟩
        · unfold Storage.issued
          rw [hl]
          subst hs1
          simp
        · exact absurd hlt hnot
      refine ⟨?_, ?_, ?_, ?_⟩
      · rw [hl]
        simp [hne, hfull]
      · intro _ _
        exact ⟨k, hmem, hmin, hl, by rw [hkeys, hk1]⟩
      · intro hlt
        exact absurd hfull (Nat.not_le.mpr hlt)
      · intro hn
        exact absurd hne hn
  · rw [if_neg hfull] at hev
    simp only [Prod.mk.injEq, true_and] at hev
    subst hev
    have hl : ∀ k, Op.delete k ∉ s.issued s' := by
      intro k
      unfold Storage.issued
      rcases hlog with hl | ⟨_, hl⟩ <;> rw [hl] <;> simp
    refine ⟨?_, ?_, ?_, ?_⟩
    · constructor
      · rintro ⟨k, hk⟩
        exact absurd hk (hl k)
      · rintro ⟨hf, _⟩
        exact absurd hf hfull
    · intro hf
      exact absurd hf hfull
    · intro _
      exact hkeys
    · intro _
      exact hkeys

/-- C1 at a store at capacity 2 holding timestamps 1 and 2: writing timestamp 3
deletes timestamp 1 before the put. -/
theorem Set_evicts_oldest_iff_full_witness :
    ∃ k ∈ fullOfTwo.keys, (∀ j ∈ fullOfTwo.keys, k ≤ j) ∧
      fullOfTwo.issued (fullOfTwo.Set Faults.none Context.live (testRecord 3)).2 =
        [Op.queryAggregate, Op.delete k, Op.put 3 (testRecord 3).MetricValue] ∧
      (fullOfTwo.Set Faults.none Context.live (testRecord 3)).2.keys =
        insert 3 (fullOfTwo.keys.erase k) :=
  (Set_evicts_oldest_iff_full fullOfTwo _ Faults.none Context.live (testRecord 3) rfl).2.1
    (by decide) (by decide)

/-- C2 (amended): from an empty store with counter 0, after every call of a
successful sequence of `Set` calls the number of distinct timestamps held is at
most `maxRecords`, or at most 1 when `maxRecords` is 0. -/
theorem SetMany_card_le (s : Storage) (hmax : s.maxRecords < 2 ^ 64) (hc : s.counter = 0)
    (hm : s.client.metrics = []) (calls : List (Faults × Context × Record))
    (hok : Succeeded (s.SetMany calls)) :
    ∀ out ∈ s.SetMany calls, out.2.keys.card ≤ max s.maxRecords 1 := by
  have h0 : s.Bounded := by
    refine ⟨hmax, by omega, Or.inl ?_⟩
    simp [Storage.keys, Backend.keys, hm]
  have hall := SetMany_preserves (fun t => t.Bounded ∧ t.maxRecords = s.maxRecords)
    (fun t t' f ctx r ht hset => by
      obtain ⟨hb, heq⟩ := Set_Bounded ht.1 hset
      exact ⟨hb, heq.trans ht.2⟩)
    calls s ⟨h0, rfl⟩ hok
  intro out hout
  obtain ⟨⟨_, b2, b3⟩, heq⟩ := hall out hout
  rw [heq] at b2 b3
  rcases b3 with b3 | ⟨_, b3⟩
  · exact le_trans (le_trans b3 b2) (le_max_left _ _)
  · exact le_trans b3 (le_max_right _ _)

/-- C2 (amended) on five writes with repeated timestamps at capacity 2: the
state after the last call holds at most 2 timestamps. -/
theorem SetMany_card_le_witness :
    ((Storage.empty 2).final (testCalls [1, 2, 2, 3, 1])).keys.card ≤
      max (Storage.empty 2).maxRecords 1 :=
  SetMany_card_le (Storage.empty 2) (by decide) rfl rfl (testCalls [1, 2, 2, 3, 1]) (by decide)
    (none, (Storage.empty 2).final (testCalls [1, 2, 2, 3, 1])) (by decide)

/-- C2 as stated fails at capacity 0: one successful `Set` on the empty store
leaves one timestamp in the store. -/
theorem capacity_zero_holds_a_record :
    (Storage.empty 0).counter = 0 ∧ (Storage.empty 0).client.metrics = [] ∧
    Succeeded ((Storage.empty 0).SetMany (testCalls [1])) ∧
    ∃ out ∈ (Storage.empty 0).SetMany (testCalls [1]),
      ¬ out.2.keys.card ≤ (Storage.empty 0).maxRecords := by
  refine ⟨rfl, rfl, by decide, ?_⟩
  refine ⟨((Storage.empty 0).Set Faults.none Context.live (testRecord 1)), ?_, ?_⟩
  · simp [Storage.SetMany, testCalls]
  · decide

/-- C3: from a state with counter at most `maxRecords`, one `Set` call keeps
the counter at most `maxRecords`; a successful call adds one when the counter
was below `maxRecords` and leaves it unchanged otherwise, a failing call leaves
it unchanged; a call with a live context whose client calls succeed is
successful, so it does add one below `maxRecords`; along every successful
sequence of `Set` calls from such a state (counter 0 included) the counter
stays at most `maxRecords` and never decreases, and the sequences with live
contexts and succeeding client calls are successful. -/
theorem Set_counter_bounded (s : Storage) (f : Faults) (ctx : Context) (r : Record)
    (hmax : s.maxRecords < 2 ^ 64) (hle : s.counter ≤ s.maxRecords) :
    (s.Set f ctx r).2.maxRecords = s.maxRecords ∧
    (s.Set f ctx r).2.counter ≤ s.maxRecords ∧
    ((s.Set f ctx r).1 = none → s.counter < s.maxRecords →
      (s.Set f ctx r).2.counter = s.counter + 1) ∧
    ((s.Set f ctx r).1 = none → s.counter ≥ s.maxRecords →
      (s.Set f ctx r).2.counter = s.counter) ∧
    ((s.Set f ctx r).1 ≠ none → (s.Set f ctx r).2.counter = s.counter) ∧
    (∀ calls : List (Faults × Context × Record), Succeeded (s.SetMany calls) →
      (∀ out ∈ s.SetMany calls, out.2.counter ≤ s.maxRecords) ∧
      List.Chain (fun a b => a ≤ b) s.counter
        ((s.SetMany calls).map (fun out => out.2.counter))) ∧
    (ctx.Err = none → f.writeClean → (s.Set f ctx r).1 = none) ∧
    (ctx.Err = none → f.writeClean → s.counter < s.maxRecords →
      (s.Set f ctx r).2.counter = s.counter + 1) ∧
    (∀ calls : List (Faults × Context × Record),
      (∀ c ∈ calls, c.2.1.Err = none ∧ c.1.writeClean) → Succeeded (s.SetMany calls)) := by
  have hgo := Set_succeeds s f ctx r
  cases hres : (s.Set f ctx r).1 with
  | none =>
    obtain ⟨f1, f2, _, _⟩ := Set_ok_frame (Prod.ext hres rfl :
      s.Set f ctx r = (none, (s.Set f ctx r).2))
    have hsucc : s.counter < s.maxRecords → (s.Set f ctx r).2.counter = s.counter + 1 := by
      intro hlt
      rw [f2, if_pos hlt, Nat.mod_eq_of_lt (by omega)]
    have hsame : s.counter ≥ s.maxRecords → (s.Set f ctx r).2.counter = s.counter := by
      intro hge
      rw [f2, if_neg (Nat.not_lt.mpr hge)]
    refine ⟨f1, ?_, fun _ => hsucc, fun _ => hsame, fun hne => absurd rfl hne,
      fun calls hok => SetMany_counter calls s hmax hle hok, fun _ _ => rfl,
      fun _ _ hlt => hsucc hlt, fun calls hall => SetMany_succeeds calls s hall⟩
    by_cases hlt : s.counter < s.maxRecords
    · rw [hsucc hlt]; omega
    · rw [hsame (Nat.not_lt.mp hlt)]; exact hle
  | some e =>
    obtain ⟨f1, f2, _, _⟩ := Set_err_frame (Prod.ext hres rfl :
      s.Set f ctx r = (some e, (s.Set f ctx r).2))
    have hno : ctx.Err = none → f.writeClean → False := by
      intro hc hf
      have h0 := hgo hc hf
      rw [hres] at h0
      simp at h0
    refine ⟨f1, by rw [f2]; exact hle, fun h => by simp at h, fun h => by simp at h,
      fun _ => f2, fun calls hok => SetMany_counter calls s hmax hle hok,
      fun hc hf => (hno hc hf).elim, fun hc hf _ => (hno hc hf).elim,
      fun calls hall => SetMany_succeeds calls s hall⟩

/-- C3 at the empty storage of capacity 2: the first write succeeds and moves
the counter from 0 to 1. -/
theorem Set_counter_bounded_witness :
    ((Storage.empty 2).Set Faults.none Context.live (testRecord 1)).1 = none ∧
    ((Storage.empty 2).Set Faults.none Context.live (testRecord 1)).2.counter =
      (Storage.empty 2).counter + 1 :=
  ⟨(Set_counter_bounded (Storage.empty 2) Faults.none Context.live (testRecord 1)
      (by decide) (by decide)).2.2.2.2.2.2.1 rfl (by decide),
    (Set_counter_bounded (Storage.empty 2) Faults.none Context.live (testRecord 1)
      (by decide) (by decide)).2.2.2.2.2.2.2.1 rfl (by decide) (by decide)⟩

/-- C4 (amended): from an empty store with counter 0 and a capacity of at least
one, after a successful run of `Set` calls with strictly increasing timestamps
the counter is the minimum of the number of calls and `maxRecords` and the
store holds the records of the last min(calls, `maxRecords`) calls; a range
read over a window holding all the timestamps returns a result exactly when its
context is live, the client reports no error and none of those records has a
nil value, and every result it returns is, up to order, those records. -/
theorem SetMany_increasing_keeps_newest (s : Storage) (calls : List (Faults × Context × Record))
    (hmin : 1 ≤ s.maxRecords) (hmax : s.maxRecords < 2 ^ 64) (hc : s.counter = 0)
    (hm : s.client.metrics = [])
    (hts : (calls.map (fun c => c.2.2.Timestamp)).Pairwise (fun a b => a < b))
    (hok : Succeeded (s.SetMany calls)) :
    (s.final calls).counter = min calls.length s.maxRecords ∧
    (s.final calls).client.metrics =
      (((calls.map (fun c => c.2.2)).drop
        (calls.length - min calls.length s.maxRecords)).reverse).map
          (fun r => (r.Timestamp, r.MetricValue)) ∧
    ∀ (f : Faults) (ctx : Context) (lo hi : Int),
      (∀ c ∈ calls, lo ≤ c.2.2.Timestamp ∧ c.2.2.Timestamp ≤ hi) →
      ((∃ res, ((s.final calls).GetByRange f ctx lo hi).1 = (some res, none)) ↔
        (ctx.Err = none ∧ f.readClean ∧
          ∀ r ∈ (calls.map (fun c => c.2.2)).drop
            (calls.length - min calls.length s.maxRecords), r.MetricValue ≠ BinValue.nil)) ∧
      (∀ res, ((s.final calls).GetByRange f ctx lo hi).1.1 = some res →
        res.length = min calls.length s.maxRecords ∧
        res.Perm ((calls.map (fun c => c.2.2)).drop
          (calls.length - min calls.length s.maxRecords))) := by
  have hJ : s.Ordered := by
    refine ⟨?_, ?_, ?_, hmin, hmax⟩
    · rw [hm]; exact List.Pairwise.nil
    · rw [hm, hc]; rfl
    · omega
  obtain ⟨m1, J1, _⟩ := SetMany_Ordered calls s hJ (by rw [hm]; simp) hts hok
  rw [hm, List.append_nil] at m1
  have hlen : (s.final calls).client.metrics.length = min calls.length s.maxRecords := by
    rw [m1, List.length_take, List.length_map, List.length_reverse, Nat.min_comm]
  have hsub : calls.length - s.maxRecords = calls.length - min calls.length s.maxRecords := by
    omega
  have hmet : (s.final calls).client.metrics =
      (((calls.map (fun c => c.2.2)).drop
        (calls.length - min calls.length s.maxRecords)).reverse).map
          (fun r => (r.Timestamp, r.MetricValue)) := by
    have hfun : (fun c : Faults × Context × Record => (c.2.2.Timestamp, c.2.2.MetricValue)) =
        (fun r : Record => (r.Timestamp, r.MetricValue)) ∘
          fun c : Faults × Context × Record => c.2.2 := rfl
    rw [m1, hfun, ← List.map_map, ← List.map_take, List.map_reverse, List.take_reverse,
      List.length_map, hsub]
  refine ⟨by rw [J1.2.1, hlen], hmet, ?_⟩
  intro f ctx lo hi hwin
  obtain ⟨g1, g2⟩ := GetByRange_result (s.final calls) f ctx lo hi
  have hfilter : (s.final calls).client.metrics.filter
      (fun p => decide (lo ≤ p.1) && decide (p.1 ≤ hi)) = (s.final calls).client.metrics := by
    rw [List.filter_eq_self]
    intro p hp
    rw [m1] at hp
    obtain ⟨c, hcm, hcp⟩ := List.mem_map.mp (List.take_subset _ _ hp)
    have := hwin c (List.mem_reverse.mp hcm)
    rw [← hcp]
    simp [this.1, this.2]
  rw [hfilter] at g1 g2
  have hnil : (∀ p ∈ (s.final calls).client.metrics, lo ≤ p.1 → p.1 ≤ hi → p.2 ≠ BinValue.nil) ↔
      ∀ r ∈ (calls.map (fun c => c.2.2)).drop
        (calls.length - min calls.length s.maxRecords), r.MetricValue ≠ BinValue.nil := by
    constructor
    · intro h r hr
      have hp : (r.Timestamp, r.MetricValue) ∈ (s.final calls).client.metrics := by
        rw [hmet]
        exact List.mem_map.mpr ⟨r, List.mem_reverse.mpr hr, rfl⟩
      obtain ⟨c, hc1, hc2⟩ := List.mem_map.mp (List.drop_subset _ _ hr)
      have hw := hwin c hc1
      rw [hc2] at hw
      exact h _ hp hw.1 hw.2
    · intro h p hp _ _
      rw [hmet] at hp
      obtain ⟨r, hr1, hr2⟩ := List.mem_map.mp hp
      rw [← hr2]
      exact h r (List.mem_reverse.mp hr1)
  refine ⟨⟨?_, ?_⟩, ?_⟩
  · rintro ⟨res, hres⟩
    have hsome : ((s.final calls).GetByRange f ctx lo hi).1.1 = some res := by rw [hres]
    obtain ⟨k1, k2⟩ := GetByRange_some_clean _ f ctx lo hi res hsome
    exact ⟨k1, k2, hnil.mp (g2 res hsome).2⟩
  · rintro ⟨k1, ⟨k2, k3, k4⟩, k5⟩
    exact ⟨_, g1 k1 k2 k3 k4 (hnil.mpr k5)⟩
  · intro res hres
    have hr := (g2 res hres).1
    refine ⟨by rw [hr, List.length_map, hlen], ?_⟩
    have hrows : res = ((calls.map (fun c => c.2.2)).drop
        (calls.length - min calls.length s.maxRecords)).reverse := by
      have hid : ((fun p : Int × BinValue => (⟨p.1, p.2⟩ : Record)) ∘
          fun r : Record => (r.Timestamp, r.MetricValue)) = id := rfl
      rw [hr, hmet, List.map_map, hid, List.map_id]
    rw [hrows]
    exact List.reverse_perm _

/-- C4 (amended) on the scenario of the spec: capacity 5 and timestamps 1 to 6
give counter 5 and a range read over [0, 10] returns a result. -/
theorem SetMany_increasing_keeps_newest_witness :
    ((Storage.empty 5).final (testCalls [1, 2, 3, 4, 5, 6])).counter = 5 ∧
    ∃ res, (((Storage.empty 5).final (testCalls [1, 2, 3, 4, 5, 6])).GetByRange
      Faults.none Context.live 0 10).1 = (some res, none) :=
  ⟨(SetMany_increasing_keeps_newest (Storage.empty 5) (testCalls [1, 2, 3, 4, 5, 6])
      (by decide) (by decide) rfl rfl (by decide) (by decide)).1,
    ((SetMany_increasing_keeps_newest (Storage.empty 5) (testCalls [1, 2, 3, 4, 5, 6])
      (by decide) (by decide) rfl rfl (by decide) (by decide)).2.2
        Faults.none Context.live 0 10 (by decide)).1.mpr ⟨rfl, by decide, by decide⟩⟩

/-- C4 as stated fails: at capacity 5 the six writes with timestamps 1 to 6
succeed, the last one without a metric value, the counter is 5, and the range
read over [0, 10], with a live context and no client error, returns an error
and no records. -/
theorem GetByRange_fails_on_nil_value :
    1 ≤ (Storage.empty 5).maxRecords ∧
    Succeeded ((Storage.empty 5).SetMany nilLastCalls) ∧
    (nilLastCalls.map (fun c => c.2.2.Timestamp)).Pairwise (fun a b => a < b) ∧
    (∀ c ∈ nilLastCalls, (0 : Int) ≤ c.2.2.Timestamp ∧ c.2.2.Timestamp ≤ 10) ∧
    ((Storage.empty 5).final nilLastCalls).counter = 5 ∧
    (((Storage.empty 5).final nilLastCalls).GetByRange Faults.none Context.live 0 10).1 =
      (none, some (Error.base "failed to cast metric_value to float64")) := by
  decide

/-- C5 (amended): two successful `Set` calls with the same timestamp leave
exactly one row at that timestamp, holding the value of the second write; the
second write adds one to the counter when the counter was still below
`maxRecords` and leaves it unchanged otherwise. -/
theorem Set_same_timestamp (s s1 s2 : Storage) (f1 f2 : Faults) (ctx1 ctx2 : Context)
    (r1 r2 : Record) (hmax : s.maxRecords < 2 ^ 64) (ht : r2.Timestamp = r1.Timestamp)
    (h1 : s.Set f1 ctx1 r1 = (none, s1)) (h2 : s1.Set f2 ctx2 r2 = (none, s2)) :
    s2.client.metrics.filter (fun p => p.1 == r1.Timestamp) = [(r1.Timestamp, r2.MetricValue)] ∧
    (s1.counter < s1.maxRecords → s2.counter = s1.counter + 1) ∧
    (s1.counter ≥ s1.maxRecords → s2.counter = s1.counter) := by
  obtain ⟨a1, _, _, _⟩ := Set_ok_frame h1
  obtain ⟨_, b2, _, _⟩ := Set_ok_frame h2
  obtain ⟨_, _, _, t1, _, _, _, hm, _⟩ := Set_ok h2
  refine ⟨?_, ?_, ?_⟩
  · rw [hm, ht]
    exact filter_key_put _ _ _
  · intro hlt
    rw [b2, if_pos hlt, Nat.mod_eq_of_lt (by omega)]
  · intro hge
    rw [b2, if_neg (Nat.not_lt.mpr hge)]

/-- C5 (amended) on the empty storage of capacity 5, writing timestamp 1 twice. -/
theorem Set_same_timestamp_witness :
    (((Storage.empty 5).Set Faults.none Context.live ⟨1, BinValue.int 10⟩).2.Set
        Faults.none Context.live ⟨1, BinValue.int 20⟩).2.client.metrics.filter
      (fun p => p.1 == 1) = [(1, BinValue.int 20)] :=
  (Set_same_timestamp (Storage.empty 5) _ _ Faults.none Faults.none Context.live Context.live
    ⟨1, BinValue.int 10⟩ ⟨1, BinValue.int 20⟩ (by decide) rfl rfl rfl).1

/-- C5 as stated fails: on the empty storage of capacity 5 both writes of
timestamp 1 succeed, one row is left with the second value, and the second
write moves the counter from 1 to 2. -/
theorem second_write_changes_counter :
    ((Storage.empty 5).Set Faults.none Context.live ⟨1, BinValue.int 10⟩).1 = none ∧
    (((Storage.empty 5).Set Faults.none Context.live ⟨1, BinValue.int 10⟩).2.Set
        Faults.none Context.live ⟨1, BinValue.int 20⟩).1 = none ∧
    ((Storage.empty 5).Set Faults.none Context.live ⟨1, BinValue.int 10⟩).2.counter = 1 ∧
    (((Storage.empty 5).Set Faults.none Context.live ⟨1, BinValue.int 10⟩).2.Set
        Faults.none Context.live ⟨1, BinValue.int 20⟩).2.counter = 2 ∧
    (((Storage.empty 5).Set Faults.none Context.live ⟨1, BinValue.int 10⟩).2.Set
        Faults.none Context.live ⟨1, BinValue.int 20⟩).2.client.metrics =
      [(1, BinValue.int 20)] := by
  decide

/-- C6 (amended): after a successful `Set` of `r`, a range read over a window
holding the timestamp of `r` returns a result exactly when its context is live,
the client reports no error and no row stored in the window, the row of `r`
included, lacks its value; every result it returns holds exactly one record
with that timestamp, equal to `r`; the row of `r` is in the store, so the
eviction of the same call did not remove it. -/
theorem Set_then_GetByRange (s s' : Storage) (f g : Faults) (ctx rctx : Context) (r : Record)
    (lo hi : Int) (hlo : lo ≤ r.Timestamp) (hhi : r.Timestamp ≤ hi)
    (h : s.Set f ctx r = (none, s')) :
    ((∃ res, (s'.GetByRange g rctx lo hi).1 = (some res, none)) ↔
      (rctx.Err = none ∧ g.readClean ∧
        ∀ p ∈ s'.client.metrics, lo ≤ p.1 → p.1 ≤ hi → p.2 ≠ BinValue.nil)) ∧
    (∀ res, (s'.GetByRange g rctx lo hi).1.1 = some res →
      res.filter (fun x => x.Timestamp == r.Timestamp) = [r]) ∧
    s'.client.metrics.filter (fun p => p.1 == r.Timestamp) = [(r.Timestamp, r.MetricValue)] ∧
    (r.MetricValue = BinValue.nil → (s'.GetByRange g rctx lo hi).1.1 = none) := by
  obtain ⟨_, _, _, s1, _, _, _, hm, _⟩ := Set_ok h
  have hrow : s'.client.metrics.filter (fun p => p.1 == r.Timestamp) =
      [(r.Timestamp, r.MetricValue)] := by
    rw [hm]
    exact filter_key_put _ _ _
  have hmem : (r.Timestamp, r.MetricValue) ∈ s'.client.metrics := by
    rw [hm]
    exact List.mem_cons_self _ _
  obtain ⟨g1, g2⟩ := GetByRange_result s' g rctx lo hi
  refine ⟨⟨?_, ?_⟩, ?_, hrow, ?_⟩
  · rintro ⟨res, hres⟩
    have hsome : (s'.GetByRange g rctx lo hi).1.1 = some res := by rw [hres]
    obtain ⟨k1, k2⟩ := GetByRange_some_clean s' g rctx lo hi res hsome
    exact ⟨k1, k2, (g2 res hsome).2⟩
  · rintro ⟨k1, ⟨k2, k3, k4⟩, k5⟩
    exact ⟨_, g1 k1 k2 k3 k4 k5⟩
  · intro res hres
    rw [(g2 res hres).1, List.filter_map, List.filter_filter]
    have hpred : (fun p : Int × BinValue =>
          ((fun x : Record => x.Timestamp == r.Timestamp) ∘
            fun p : Int × BinValue => (⟨p.1, p.2⟩ : Record)) p &&
          (decide (lo ≤ p.1) && decide (p.1 ≤ hi))) = fun p => p.1 == r.Timestamp := by
      funext p
      by_cases hp : p.1 = r.Timestamp
      · simp [hp, hlo, hhi]
      · simp [hp]
    rw [hpred, hrow]
    rfl
  · intro hnil
    cases hres : (s'.GetByRange g rctx lo hi).1.1 with
    | none => rfl
    | some res =>
      exact absurd hnil ((g2 res hres).2 _ hmem hlo hhi)

/-- C6 (amended) on the empty storage of capacity 5: the record written is read
back. -/
theorem Set_then_GetByRange_witness :
    ∃ res, (((Storage.empty 5).Set Faults.none Context.live (testRecord 3)).2.GetByRange
      Faults.none Context.live 0 10).1 = (some res, none) :=
  (Set_then_GetByRange (Storage.empty 5) _ Faults.none Faults.none Context.live Context.live
    (testRecord 3) 0 10 (by decide) (by decide) rfl).1.mpr ⟨rfl, by decide, by decide⟩

/-- C6 as stated fails: the write of a record without a metric value succeeds,
and the range read that follows over [0, 10], with a live context and no client
error, returns an error and no records. -/
theorem GetByRange_after_Set_can_fail :
    ((Storage.empty 5).Set Faults.none Context.live (nilRecord 3)).1 = none ∧
    (0 : Int) ≤ (nilRecord 3).Timestamp ∧ (nilRecord 3).Timestamp ≤ 10 ∧
    (((Storage.empty 5).Set Faults.none Context.live (nilRecord 3)).2.GetByRange
      Faults.none Context.live 0 10).1 =
        (none, some (Error.base "failed to cast metric_value to float64")) := by
  decide

/-- C7: with the counter at `maxRecords` or above, when the find-oldest
reduction fails (the aggregation call or its result stream reports an error)
or the delete of the oldest key fails, `Set` returns an error, issues no put,
and leaves the stored rows, the counter and the persisted counter unchanged. -/
theorem Set_aborts_when_eviction_fails (s : Storage) (f : Faults) (ctx : Context) (r : Record)
    (hfull : s.counter ≥ s.maxRecords)
    (hfail : f.queryAggregate ≠ none ∨ f.aggregateResult ≠ none ∨
      (s.client.metrics ≠ [] ∧ f.delete ≠ none)) :
    (s.Set f ctx r).1 ≠ none ∧
    (∀ k v, Op.put k v ∉ s.issued (s.Set f ctx r).2) ∧
    (s.Set f ctx r).2.client.metrics = s.client.metrics ∧
    (s.Set f ctx r).2.counter = s.counter ∧
    (s.Set f ctx r).2.client.counter = s.client.counter := by
  cases hctx : ctx.Err with
  | some e0 =>
    have hset : s.Set f ctx r = (some (Error.wrap "context error" e0), s) := by
      unfold Storage.Set
      rw [hctx]
    rw [hset]
    refine ⟨by simp, ?_, rfl, rfl, rfl⟩
    intro k v
    simp [Storage.issued]
  | none =>
    obtain ⟨e, he⟩ := evict_fails hctx hfail
    have hev : s.evict f ctx = (some e, (s.evict f ctx).2) := Prod.ext he rfl
    have hset : s.Set f ctx r =
        (some (Error.wrap "failed to evict records" e), (s.evict f ctx).2) := by
      unfold Storage.Set
      rw [hctx]
      simp only [if_pos hfull]
      rw [hev]
    obtain ⟨e1, e2, e3, _, _, e6, _⟩ := evict_err hev
    rw [hset]
    exact ⟨by simp, e6, e1, e3, e2⟩

/-- C7 at the full store of two records when the delete fails. -/
theorem Set_aborts_when_eviction_fails_witness :
    (fullOfTwo.Set { Faults.none with delete := some (Error.base "timeout") } Context.live
      (testRecord 3)).2.client.metrics = fullOfTwo.client.metrics :=
  (Set_aborts_when_eviction_fails fullOfTwo
    { Faults.none with delete := some (Error.base "timeout") } Context.live (testRecord 3)
    (by decide) (Or.inr (Or.inr (by decide)))).2.2.1

/-- C8: with a cancelled context `Set`, `GetByRange`, `GetCounter` and
`FindOldestKey` return an error and leave the whole state, the list of issued
client calls included, as it was; `SetCounter` with a cancelled context logs
the context error and still issues the put, which overwrites the persisted
counter. -/
theorem SetCounter_writes_under_cancelled_context :
    (∀ (s : Storage) (f : Faults) (r : Record),
      (s.Set f Context.canceled r).1 ≠ none ∧ (s.Set f Context.canceled r).2 = s) ∧
    (∀ (s : Storage) (f : Faults) (lo hi : Int),
      (s.GetByRange f Context.canceled lo hi).1.2 ≠ none ∧
      (s.GetByRange f Context.canceled lo hi).2 = s) ∧
    (∀ (s : Storage) (f : Faults),
      (s.GetCounter f Context.canceled).1.2 ≠ none ∧ (s.GetCounter f Context.canceled).2 = s) ∧
    (∀ (s : Storage) (f : Faults),
      (s.FindOldestKey f Context.canceled).1.2 ≠ none ∧
      (s.FindOldestKey f Context.canceled).2 = s) ∧
    Context.canceled.Err ≠ none ∧
    (Storage.empty 5).client.counter = none ∧
    ((Storage.empty 5).SetCounter Faults.none Context.canceled 10).client.counter =
      some (BinValue.int 10) ∧
    (Storage.empty 5).issued ((Storage.empty 5).SetCounter Faults.none Context.canceled 10) =
      [Op.putCounter 10] ∧
    ((Storage.empty 5).SetCounter Faults.none Context.canceled 10).logger = ["context error"] := by
  refine ⟨?_, ?_, ?_, ?_, by decide, rfl, rfl, rfl, rfl⟩
  · intro s f r
    simp [Storage.Set, Context.Err]
  · intro s f lo hi
    simp [Storage.GetByRange, Context.Err]
  · intro s f
    simp [Storage.GetCounter, Context.Err]
  · intro s f
    simp [Storage.FindOldestKey, Context.Err]

theorem toUint64_of_nonneg {n : Int} {m : Nat} (h0 : 0 ≤ n) (hn : n ≤ m) (hm : m < 2 ^ 64) :
    toUint64 n = n.toNat := by
  unfold toUint64
  rw [Int.emod_eq_of_lt h0 (by omega)]

/-- C9 (amended): when `NewStorage` succeeds the counter it initialises is the
persisted integer converted to `uint64` when `GetCounter` succeeds and 0 when
the counter record is absent, unreadable or not an integer; it is at most
`maxRecords`, and stays so after a write, when the record is absent,
unreadable, not an integer, or holds an integer from 0 to `maxRecords`. -/
theorem NewStorage_counter (f : Faults) (maxRecords : Nat) (db : Backend) (st : Storage)
    (hmax : maxRecords < 2 ^ 64) (h : NewStorage f maxRecords db = (some st, none)) :
    st.maxRecords = maxRecords ∧ st.client.metrics = db.metrics ∧
    (∀ n, f.counterNewKey = none → f.get = none → db.counter = some (BinValue.int n) →
      st.counter = toUint64 n) ∧
    ((f.counterNewKey ≠ none ∨ f.get ≠ none ∨ ∀ n, db.counter ≠ some (BinValue.int n)) →
      st.counter = 0) ∧
    ((f.counterNewKey ≠ none ∨ f.get ≠ none ∨ (∀ n, db.counter ≠ some (BinValue.int n)) ∨
        ∃ n, db.counter = some (BinValue.int n) ∧ 0 ≤ n ∧ n ≤ (maxRecords : Int)) →
      st.counter ≤ maxRecords ∧
      ∀ (g : Faults) (ctx : Context) (r : Record), (st.Set g ctx r).2.counter ≤ maxRecords) := by
  have hmain : st.maxRecords = maxRecords ∧ st.client.metrics = db.metrics ∧
      (∀ n, f.counterNewKey = none → f.get = none → db.counter = some (BinValue.int n) →
        st.counter = toUint64 n) ∧
      ((f.counterNewKey ≠ none ∨ f.get ≠ none ∨ ∀ n, db.counter ≠ some (BinValue.int n)) →
        st.counter = 0) := by
    unfold NewStorage Storage.GetCounter at h
    cases h1 : f.newClient <;> cases h2 : f.createIndex <;> cases h3 : f.registerUDF <;>
      cases h4 : f.counterNewKey <;> cases h5 : f.get <;> rw [h1, h2, h3, h4, h5] at h <;>
      simp [Context.Err] at h
    all_goals first
      | (subst h; simp)
      | (cases h6 : db.counter with
          | none => rw [h6] at h; simp at h; subst h; simp
          | some b =>
            cases b <;> rw [h6] at h <;> simp at h <;> subst h <;> simp)
  obtain ⟨m1, m2, m3, m4⟩ := hmain
  refine ⟨m1, m2, m3, m4, ?_⟩
  intro hcase
  have hle : st.counter ≤ maxRecords := by
    rcases hcase with c | c | c | ⟨n, c1, c2, c3⟩
    · rw [m4 (Or.inl c)]; exact Nat.zero_le _
    · rw [m4 (Or.inr (Or.inl c))]; exact Nat.zero_le _
    · rw [m4 (Or.inr (Or.inr c))]; exact Nat.zero_le _
    · by_cases k1 : f.counterNewKey = none
      · by_cases k2 : f.get = none
        · rw [m3 n k1 k2 c1, toUint64_of_nonneg c2 c3 hmax]
          omega
        · rw [m4 (Or.inr (Or.inl k2))]; exact Nat.zero_le _
      · rw [m4 (Or.inl k1)]; exact Nat.zero_le _
  refine ⟨hle, ?_⟩
  intro g ctx r
  have := Set_counter_le (s := st) g ctx r (by rw [m1]; exact hmax) (by rw [m1]; exact hle)
  rw [m1] at this
  exact this

/-- C9 (amended) on a backing store without a counter record: `NewStorage`
succeeds and the counter starts at 0. -/
theorem NewStorage_counter_witness :
    ∃ st, NewStorage Faults.none 5 (Storage.empty 5).client = (some st, none) ∧ st.counter = 0 :=
  ⟨((Storage.empty 5).GetCounter Faults.none Context.live).2, rfl,
    (NewStorage_counter Faults.none 5 (Storage.empty 5).client
      ((Storage.empty 5).GetCounter Faults.none Context.live).2 (by decide) rfl).2.2.2.1
      (Or.inr (Or.inr (fun n => by simp [Storage.empty])))⟩

/-- C9 as stated fails: with the persisted counter 10 and `maxRecords` 5,
`NewStorage` succeeds and starts with counter 10. -/
theorem NewStorage_loads_counter_above_capacity :
    ∃ st, NewStorage Faults.none 5 persistedTen = (some st, none) ∧ st.maxRecords = 5 ∧
      st.counter = 10 ∧ ¬ st.counter ≤ st.maxRecords :=
  ⟨_, rfl, rfl, by decide, by decide⟩

/-- C10: at a store holding one record with timestamp -5, which is at most the
time 100, `Service.GetByRange(0, 0)` at time 100 queries the window [0, 100],
succeeds and returns an empty result: the record is not returned, though the
claim, and the comment of the code on `(0, 0)`, say that it is selected. -/
theorem GetByRange_zero_zero_skips_negative :
    ((-5 : Int), BinValue.int 1) ∈ negativeStore.client.metrics ∧ (-5 : Int) ≤ 100 ∧
    negativeStore.issued
      (Service.GetByRange (Storage.getter Faults.none) 100 Context.live 0 0 negativeStore).2 =
        [Op.query 0 100] ∧
    (Service.GetByRange (Storage.getter Faults.none) 100 Context.live 0 0 negativeStore).1 =
      (some [], none) := by
  decide

/-- C12: when `Set` returns an error the counter and the persisted counter are
unchanged and no row has been added; the rows are unchanged or are the old rows
without the smallest timestamp. The second case happens exactly when the
counter had reached `maxRecords`, the store was non-empty, the eviction
succeeded and the put of the record (its key creation or `client.Put`) failed. -/
theorem Set_error_leaves_store_short (s s' : Storage) (f : Faults) (ctx : Context) (r : Record)
    (e : Error) (h : s.Set f ctx r = (some e, s')) :
    s'.counter = s.counter ∧ s'.client.counter = s.client.counter ∧
    s'.client.metrics.Sublist s.client.metrics ∧
    (s'.client.metrics = s.client.metrics ∨
      ∃ k ∈ s.keys, (∀ j ∈ s.keys, k ≤ j) ∧
        s'.client.metrics = s.client.metrics.filter (fun p => p.1 != k) ∧
        s'.keys = s.keys.erase k) ∧
    (s'.client.metrics ≠ s.client.metrics ↔
      (s.counter ≥ s.maxRecords ∧ s.keys.Nonempty ∧ (s.evict f ctx).1 = none ∧
        (f.newKey ≠ none ∨ f.put ≠ none))) := by
  obtain ⟨_, f2, f3, _⟩ := Set_err_frame h
  rcases Set_err_rows h with ⟨hm, hnot⟩ | ⟨k, hfo, hm, hfull, hev, hput⟩
  · refine ⟨f2, f3, ?_, Or.inl hm, ?_⟩
    · rw [hm]
    · constructor
      · intro hne
        exact absurd hm hne
      · rintro ⟨h1, h2, h3, _⟩
        exact absurd ⟨h1, (keys_nonempty_iff s).mp h2, h3⟩ hnot
  · have hmem : k ∈ s.client.metrics.map Prod.fst := find_oldest_mem hfo
    have hk : k ∈ s.keys := by
      unfold Storage.keys Backend.keys
      rw [List.mem_toFinset]
      exact hmem
    have hmin : ∀ j ∈ s.keys, k ≤ j := by
      intro j hj
      unfold Storage.keys Backend.keys at hj
      rw [List.mem_toFinset] at hj
      exact find_oldest_le hfo j hj
    have hkeys : s'.keys = s.keys.erase k := by
      unfold Storage.keys Backend.keys
      rw [hm]
      exact keys_delete _ _
    refine ⟨f2, f3, ?_, Or.inr ⟨k, hk, hmin, hm, hkeys⟩, ?_⟩
    · rw [hm]
      exact List.filter_sublist _
    · constructor
      · intro _
        exact ⟨hfull, ⟨k, hk⟩, hev, hput⟩
      · intro _
        rw [hm]
        exact filter_ne_self_of_mem hmem

/-- C12 at the full store of two records when the put fails after the eviction:
the record with timestamp 1 is gone and the new record is not stored. -/
theorem Set_error_leaves_store_short_witness :
    (fullOfTwo.Set { Faults.none with put := some (Error.base "timeout") } Context.live
      (testRecord 3)).2.client.metrics ≠ fullOfTwo.client.metrics :=
  (Set_error_leaves_store_short fullOfTwo _
    { Faults.none with put := some (Error.base "timeout") } Context.live (testRecord 3) _
    rfl).2.2.2.2.mpr ⟨by decide, by decide, rfl, Or.inr (by decide)⟩

/-- C11 (amended): the handler answers 405 when the method is not GET; otherwise
400, without calling the core, when `start` or `end` is non-empty and not a
base-10 int64 or when start > end, start < 0 or end < 0 (an empty parameter
counts as 0); otherwise it calls the core exactly once with (start, end) and
answers 500 when the core returns an error, 204 when the result is empty, 500
when the result is non-empty and holds a value that JSON cannot encode, and 200
otherwise. -/
theorem GetByRange_handler_status {σ : Type}
    (getter : Context → Int → Int → σ → (Option (List Record) × Option Error) × σ)
    (writeFault : Option Error) (r : Request) (st : σ) :
    (r.Method ≠ "GET" →
      (handlers.RRD.GetByRange (recording getter) writeFault ⟨none, none⟩ r (st, [])).1.status =
        some 405 ∧
      (handlers.RRD.GetByRange (recording getter) writeFault ⟨none, none⟩ r (st, [])).2 =
        (st, [])) ∧
    (r.Method = "GET" →
      ((r.start ≠ "" ∧ ParseInt r.start = none) ∨ (r.end_ ≠ "" ∧ ParseInt r.end_ = none) →
        (handlers.RRD.GetByRange (recording getter) writeFault ⟨none, none⟩ r (st, [])).1.status =
          some 400 ∧
        (handlers.RRD.GetByRange (recording getter) writeFault ⟨none, none⟩ r (st, [])).2 =
          (st, [])) ∧
      (∀ a b : Int, (if r.start ≠ "" then ParseInt r.start else some 0) = some a →
        (if r.end_ ≠ "" then ParseInt r.end_ else some 0) = some b →
        ((a > b ∨ a < 0 ∨ b < 0) →
          (handlers.RRD.GetByRange (recording getter) writeFault ⟨none, none⟩ r
            (st, [])).1.status = some 400 ∧
          (handlers.RRD.GetByRange (recording getter) writeFault ⟨none, none⟩ r (st, [])).2 =
            (st, [])) ∧
        (¬ (a > b ∨ a < 0 ∨ b < 0) →
          (handlers.RRD.GetByRange (recording getter) writeFault ⟨none, none⟩ r (st, [])).2 =
            ((getter r.ctx a b st).2, [(a, b)]) ∧
          ((getter r.ctx a b st).1.2 ≠ none →
            (handlers.RRD.GetByRange (recording getter) writeFault ⟨none, none⟩ r
              (st, [])).1.status = some 500) ∧
          ((getter r.ctx a b st).1.2 = none → ((getter r.ctx a b st).1.1.getD []) = [] →
            (handlers.RRD.GetByRange (recording getter) writeFault ⟨none, none⟩ r
              (st, [])).1.status = some 204) ∧
          ((getter r.ctx a b st).1.2 = none → ((getter r.ctx a b st).1.1.getD []) ≠ [] →
            (handlers.RRD.GetByRange (recording getter) writeFault ⟨none, none⟩ r
              (st, [])).1.status =
              if ((getter r.ctx a b st).1.1.getD []).any (fun x => jsonUnsupported x.MetricValue)
              then some 500 else some 200)))) := by
  refine ⟨?_, ?_⟩
  · intro hm
    unfold handlers.RRD.GetByRange
    rw [if_pos hm]
    exact ⟨rfl, rfl⟩
  · intro hm
    have hnot : ¬ r.Method ≠ "GET" := fun h => h hm
    refine ⟨?_, ?_⟩
    · intro hbad
      unfold handlers.RRD.GetByRange
      rw [if_neg hnot]
      rcases hbad with ⟨h1, h2⟩ | ⟨h1, h2⟩
      · rw [if_pos h1, h2]
        exact ⟨rfl, rfl⟩
      · rw [if_pos h1, h2]
        cases (if r.start ≠ "" then ParseInt r.start else some 0) with
        | none => exact ⟨rfl, rfl⟩
        | some a => exact ⟨rfl, rfl⟩
    · intro a b ha hb
      refine ⟨?_, ?_⟩
      · intro hrange
        unfold handlers.RRD.GetByRange
        rw [if_neg hnot, ha, hb]
        simp only
        rw [if_pos hrange]
        exact ⟨rfl, rfl⟩
      · intro hrange
        unfold handlers.RRD.GetByRange
        rw [if_neg hnot, ha, hb]
        simp only
        rw [if_neg hrange]
        unfold recording
        simp only [List.nil_append]
        rcases hg : getter r.ctx a b st with ⟨⟨res, err⟩, st1⟩
        cases err with
        | some e =>
          simp only
          refine ⟨trivial, fun _ => rfl, fun h => by simp at h, fun h => by simp at h⟩
        | none =>
          simp only
          by_cases hempty : (res.getD []).length = 0
          · rw [if_pos hempty]
            refine ⟨rfl, fun h => absurd rfl h, fun _ _ => rfl, ?_⟩
            intro _ hne
            exact absurd (List.length_eq_zero.mp hempty) hne
          · rw [if_neg hempty]
            obtain ⟨e1, e2⟩ := Encode_fresh_status writeFault (res.getD []) 500
            have e3 := (Encode_fresh_status writeFault (res.getD []) 200).1
            rcases henc : Encode ⟨none, none⟩ writeFault (res.getD []) with ⟨ee, w1⟩
            rw [henc] at e1 e2 e3
            cases ee with
            | some e =>
              simp only
              refine ⟨trivial, fun h => absurd rfl h, ?_, fun _ _ => e1⟩
              intro _ hnil
              rw [hnil] at hempty
              exact absurd rfl hempty
            | none =>
              simp only
              refine ⟨trivial, fun h => absurd rfl h, ?_, ?_⟩
              · intro _ hnil
                rw [hnil] at hempty
                exact absurd rfl hempty
              · intro _ _
                by_cases hu : (res.getD []).any (fun x => jsonUnsupported x.MetricValue) = true
                · exfalso
                  unfold Encode at henc
                  rw [if_pos hu] at henc
                  simp at henc
                · rw [if_neg hu] at e3 ⊢
                  exact e3

/-- C11 (amended) on the first case of `TestRRD_GetByRange`: GET with start 0
and end 10 over a core that returns one record answers 200. -/
theorem GetByRange_handler_status_witness :
    (handlers.RRD.GetByRange (recording (getterMock [testRecord 1])) none ⟨none, none⟩
      (getRequest "0" "10") ((), [])).1.status = some 200 :=
  (((((GetByRange_handler_status (getterMock [testRecord 1]) none (getRequest "0" "10") ()).2
    rfl).2 0 10 (by decide) (by decide)).2 (by decide)).2.2.2 rfl (by decide)).trans
    (by decide)

/-- C11 as stated fails: for GET with start 0 and end 10 the core returns no
error and a non-empty result, a record whose value is a NaN, and the handler
answers 500, not 200. -/
theorem handler_answers_500_on_unencodable_result :
    (getRequest "0" "10").Method = "GET" ∧ ParseInt "0" = some 0 ∧ ParseInt "10" = some 10 ∧
    getterMock [nanRecord] Context.live 0 10 () = ((some [nanRecord], none), ()) ∧
    (handlers.RRD.GetByRange (recording (getterMock [nanRecord])) none ⟨none, none⟩
      (getRequest "0" "10") ((), [])).2 = ((), [(0, 10)]) ∧
    (handlers.RRD.GetByRange (recording (getterMock [nanRecord])) none ⟨none, none⟩
      (getRequest "0" "10") ((), [])).1.status = some 500 := by
  decide

end RRD
